import Mathlib

/-!
Verification of the record normalization and deduplication pipeline of the
Junoon repository (src/data_processor.py).  Every definition below is a
shallow embedding of the corresponding Python function; pandas DataFrames
are modelled as a `Table` (a list of column names plus rows of cells,
where a cell is `Option String` and `none` models a missing value / NaN).
-/

set_option maxRecDepth 20000

namespace Junoon

/-! ### Character and string utilities mirroring Python semantics -/

/-- Python whitespace characters stripped by `str.strip()` / matched by `\s`. -/
def isWsChar (c : Char) : Bool :=
  c == ' ' || c == '\t' || c == '\n' || c == '\r' || c.toNat == 11 || c.toNat == 12

/-- A regex word character (`\w` over ASCII): letters, digits, underscore. -/
def isWordChar (c : Char) : Bool := c.isAlphanum || c == '_'

/-- `str.strip()`: drop leading and trailing whitespace. -/
def trimL (l : List Char) : List Char :=
  ((l.dropWhile isWsChar).reverse.dropWhile isWsChar).reverse

/-- Helper for `pyWordsL`, accumulating the current word reversed. -/
def wordsAux : List Char → List Char → List (List Char)
  | [], acc => if acc.isEmpty then [] else [acc.reverse]
  | c :: cs, acc =>
    if isWsChar c then
      (if acc.isEmpty then wordsAux cs [] else acc.reverse :: wordsAux cs [])
    else wordsAux cs (c :: acc)

/-- Python `str.split()` with no argument: whitespace-run split, no empty parts. -/
def pyWordsL (l : List Char) : List (List Char) := wordsAux l []

/-- Python `str.capitalize()`: first character upper-cased, the rest lower-cased. -/
def capWord : List Char → List Char
  | [] => []
  | c :: cs => c.toUpper :: cs.map Char.toLower

/-- `' '.join(...)` over a list of words. -/
def joinSp : List (List Char) → List Char
  | [] => []
  | [w] => w
  | w :: ws => w ++ ' ' :: joinSp ws

/-- `' '.join(word.capitalize() for word in s.split())`. -/
def titleCase (l : List Char) : List Char := joinSp ((pyWordsL l).map capWord)

/-- `re.sub(r'\s+', ' ', s).strip()`: collapse whitespace runs and trim. -/
def collapseWs (l : List Char) : List Char := joinSp (pyWordsL l)

/-- Case-insensitive character equality (ASCII). -/
def ciEq (a b : Char) : Bool := a.toLower == b.toLower

/-- Case-sensitive list-prefix test. -/
def isPrefixL : List Char → List Char → Bool
  | [], _ => true
  | _ :: _, [] => false
  | a :: as, b :: bs => a == b && isPrefixL as bs

/-- Case-insensitive list-prefix test. -/
def isPrefixCIL : List Char → List Char → Bool
  | [], _ => true
  | _ :: _, [] => false
  | a :: as, b :: bs => ciEq a b && isPrefixCIL as bs

/-- Case-sensitive substring test (Python `needle in hay`). -/
def containsSub (n : List Char) : List Char → Bool
  | [] => n.isEmpty
  | c :: cs => isPrefixL n (c :: cs) || containsSub n cs

/-- Case-insensitive substring test (`re.search(pat, s, re.IGNORECASE)` for a
literal pattern with no anchors). -/
def containsSubCI (n : List Char) : List Char → Bool
  | [] => n.isEmpty
  | c :: cs => isPrefixCIL n (c :: cs) || containsSubCI n cs

/-- Is there a word boundary just after a match of `t` at the head of `l`? -/
def boundaryAfterB (t l : List Char) : Bool :=
  match l.drop t.length with
  | [] => true
  | c :: _ => !(isWordChar c)

/-- First alternation target matching case-insensitively at the head of `l`
with a word boundary on both sides (`lb` says the left boundary holds). -/
def pickTarget (targets : List (List Char)) (lb : Bool) (l : List Char) :
    Option (List Char) :=
  if lb then targets.find? (fun t => isPrefixCIL t l && boundaryAfterB t l)
  else none

/-- Left-boundary state after consuming target `t` (its last character). -/
def lbAfterTarget (t : List Char) (lb : Bool) : Bool :=
  match t.reverse with
  | last :: _ => !(isWordChar last)
  | [] => lb

/-- Fuel-driven scanner implementing `re.sub(r'\b(t1|t2|...)\b', repl, s)`
(case-insensitive), scanning left to right and not rescanning replacements. -/
def rwAux (targets : List (List Char)) (repl : List Char) :
    Nat → Bool → List Char → List Char
  | _, _, [] => []
  | 0, _, l => l
  | Nat.succ fuel, lb, c :: cs =>
    match pickTarget targets lb (c :: cs) with
    | some t => repl ++ rwAux targets repl fuel (lbAfterTarget t lb) ((c :: cs).drop t.length)
    | none => c :: rwAux targets repl fuel (!(isWordChar c)) cs

/-- `re.sub(r'\b(…alternation…)\b', repl, s, flags=re.IGNORECASE)`. -/
def replaceWordCI (targets : List String) (repl : String) (s : List Char) : List Char :=
  rwAux (targets.map String.toList) repl.toList (s.length + 1) true s

/-- `str(cell)` on a pandas cell: a missing value prints as `"nan"`. -/
def cellStr (c : Option String) : String :=
  match c with
  | none => "nan"
  | some s => s

/-! ### clean_name (src/data_processor.py, clean_business_names) -/

/-- Core of `clean_name` on an explicit character list: strip, title-case,
expand abbreviations, and append a standard ending. -/
def cleanNameCore (l : List Char) : List Char :=
  let n1 := titleCase (trimL l)
  let n2 := replaceWordCI ["Fnrl"] "Funeral" n1
  let n3 := replaceWordCI ["Svcs", "Svc"] "Services" n2
  let n4 := replaceWordCI ["Mem"] "Memorial" n3
  if containsSubCI "Inc".toList n4 || containsSubCI "LLC".toList n4 ||
     containsSubCI "Ltd".toList n4 || containsSubCI "Co".toList n4 ||
     containsSubCI "Corporation".toList n4 || containsSubCI "Company".toList n4 then n4
  else if containsSubCI "Funeral Home".toList n4 || containsSubCI "Mortuary".toList n4 then n4
  else if containsSubCI "Funeral".toList n4 then n4 ++ " Home".toList
  else if containsSubCI "Cremation".toList n4 then n4 ++ " Services".toList
  else n4

/-- `clean_name` from `clean_business_names`: `none` models a NaN cell. -/
def clean_name (name : Option String) : String :=
  match name with
  | none => "Unknown Business"
  | some s =>
    if s = "N/A" then "Unknown Business"
    else (cleanNameCore s.toList).asString

/-! ### standardize_phone (src/data_processor.py, clean_phone_numbers) -/

/-- `re.sub(r'\D', '', s)`: keep only ASCII digits. -/
def digitsL (l : List Char) : List Char := l.filter Char.isDigit

/-- `f"({d[0:3]}) {d[3:6]}-{d[6:10]}"`. -/
def fmtPhone (d : List Char) : List Char :=
  '(' :: d.take 3 ++ ')' :: ' ' :: ((d.drop 3).take 3) ++ '-' :: ((d.drop 6).take 4)

/-- `standardize_phone` from `clean_phone_numbers`. -/
def standardize_phone (phone : Option String) : String :=
  match phone with
  | none => "N/A"
  | some s =>
    if s = "N/A" then "N/A"
    else
      let d := digitsL s.toList
      if d.length < 10 then (trimL s.toList).asString
      else
        let d2 := if d.length = 11 && d.headD ' ' == '1' then d.drop 1 else d
        let d3 := if d2.length > 10 then d2.drop (d2.length - 10) else d2
        (fmtPhone d3).asString

/-- Decides whether a string matches `^\(\d{3}\) \d{3}-\d{4}$`. -/
def isPhoneFmt (s : String) : Bool :=
  let l := s.toList
  decide (l.length = 14) &&
  l.getD 0 ' ' == '(' && (l.getD 1 ' ').isDigit && (l.getD 2 ' ').isDigit &&
  (l.getD 3 ' ').isDigit && l.getD 4 ' ' == ')' && l.getD 5 ' ' == ' ' &&
  (l.getD 6 ' ').isDigit && (l.getD 7 ' ').isDigit && (l.getD 8 ' ').isDigit &&
  l.getD 9 ' ' == '-' && (l.getD 10 ' ').isDigit && (l.getD 11 ' ').isDigit &&
  (l.getD 12 ' ').isDigit && (l.getD 13 ' ').isDigit

/-! ### Email validation (src/data_processor.py, extract_emails)

The pattern `^[a-zA-Z0-9._%+-]+@[a-zA-Z0-9.-]+\.[a-zA-Z]{2,}` is embedded as a
direct matcher: `matchEmail` is `re.match` (anchored at the start only) and
`searchEmail` is `re.search` (leftmost occurrence), both returning `group(0)`. -/

/-- Character class `[a-zA-Z0-9._%+-]` (local part). -/
def classA (c : Char) : Bool :=
  c.isAlpha || c.isDigit || c == '.' || c == '_' || c == '%' || c == '+' || c == '-'

/-- Character class `[a-zA-Z0-9.-]` (domain part). -/
def classB (c : Char) : Bool := c.isAlpha || c.isDigit || c == '.' || c == '-'

/-- Backtracking search for the split point of `[a-zA-Z0-9.-]+\.[a-zA-Z]{2,}`:
the largest index `k ≥ 1` such that `t[k] = '.'` and at least two letters
follow, matching the greedy `+` giving characters back from the right. -/
def domFindK (t : List Char) : Nat → Option Nat
  | 0 => none
  | Nat.succ k =>
    if t.getD (Nat.succ k) ' ' == '.' &&
       decide (2 ≤ ((t.drop (Nat.succ k + 1)).takeWhile Char.isAlpha).length)
    then some (Nat.succ k) else domFindK t k

/-- Match `[a-zA-Z0-9.-]+\.[a-zA-Z]{2,}` at the head of `t`, returning the
matched characters. -/
def domMatch (t : List Char) : Option (List Char) :=
  let rlen := (t.takeWhile classB).length
  match domFindK t (rlen - 1) with
  | some k => some (t.take k ++ '.' :: ((t.drop (k + 1)).takeWhile Char.isAlpha))
  | none => none

/-- `re.match(email_pattern, l)`: match at position 0, returning `group(0)`. -/
def matchEmail (l : List Char) : Option (List Char) :=
  let a := l.takeWhile classA
  if a.isEmpty then none
  else
    match l.drop a.length with
    | '@' :: t => (domMatch t).map (fun d => a ++ '@' :: d)
    | _ => none

/-- An unanchored leftmost search for the email pattern.  The source's
pattern keeps its `^` anchor, so the code never performs this search; this
unanchored version exists only to express what the claim asserts the
fallback does ("find the pattern anywhere inside the string"). -/
def searchEmail : List Char → Option (List Char)
  | [] => none
  | c :: cs =>
    match matchEmail (c :: cs) with
    | some m => some m
    | none => searchEmail cs

/-- `re.search(email_pattern, l)` where `email_pattern` begins with `^`:
without `re.MULTILINE`, `^` only matches at position 0, so the search
coincides with `re.match`. -/
def searchEmailCaret (l : List Char) : Option (List Char) := matchEmail l

/-- `validate_email` from `extract_emails`. -/
def validate_email (email : Option String) : String :=
  match email with
  | none => "N/A"
  | some e =>
    if e = "N/A" then "N/A"
    else
      let s := (trimL e.toList).map Char.toLower
      match matchEmail s with
      | some _ => s.asString
      | none =>
        match searchEmailCaret s with
        | some m => m.asString
        | none => "N/A"

/-- Does the email pattern match the whole string (no trailing residue)? -/
def emailFullMatch (s : String) : Bool := matchEmail s.toList == some s.toList

/-! ### Website standardization (src/data_processor.py, clean_websites) -/

/-- `url.rstrip('/')`. -/
def dropTrailingSlashes (l : List Char) : List Char :=
  (l.reverse.dropWhile (· == '/')).reverse

/-- `re.match(r'^https?://[a-zA-Z0-9.-]+\.[a-zA-Z]{2,}(/.*)?', s)` viewed as a
boolean: the optional trailing group always matches, so validity reduces to
the scheme literal followed by a domain-with-TLD prefix. -/
def urlValid (l : List Char) : Bool :=
  if isPrefixL "https://".toList l then (domMatch (l.drop 8)).isSome
  else if isPrefixL "http://".toList l then (domMatch (l.drop 7)).isSome
  else false

/-- `standardize_url` from `clean_websites`. -/
def standardize_url (url : Option String) : String :=
  match url with
  | none => "N/A"
  | some u =>
    if u = "N/A" then "N/A"
    else
      let t := trimL u.toList
      let t2 := if isPrefixL "http://".toList t || isPrefixL "https://".toList t
                then t else "http://".toList ++ t
      let t3 := dropTrailingSlashes t2
      if urlValid t3 then t3.asString else "N/A"

/-! ### State and city extraction (src/data_processor.py, standardize_addresses) -/

/-- `[A-Z]`. -/
def isUpperAZ (c : Char) : Bool := 'A' ≤ c && c ≤ 'Z'

/-- Match `,\s*([A-Z]{2})\s*\d{5}` at the head of the list, returning group 1. -/
def p1At : List Char → Option String
  | ',' :: r =>
    let r2 := r.dropWhile isWsChar
    match r2 with
    | a :: b :: r3 =>
      if isUpperAZ a && isUpperAZ b then
        let r4 := r3.dropWhile isWsChar
        if (r4.take 5).length = 5 && (r4.take 5).all Char.isDigit
        then some ⟨[a, b]⟩ else none
      else none
    | _ => none
  | _ => none

/-- Match `,\s*([A-Z]{2}),` at the head of the list, returning group 1. -/
def p2At : List Char → Option String
  | ',' :: r =>
    let r2 := r.dropWhile isWsChar
    match r2 with
    | a :: b :: r3 =>
      if isUpperAZ a && isUpperAZ b then
        match r3 with
        | ',' :: _ => some ⟨[a, b]⟩
        | _ => none
      else none
    | _ => none
  | _ => none

/-- `re.search`: try a positional matcher at every suffix, leftmost first. -/
def scanOpt (f : List Char → Option String) : List Char → Option String
  | [] => f []
  | c :: cs =>
    match f (c :: cs) with
    | some r => some r
    | none => scanOpt f cs

/-- Boolean variant of `scanOpt`. -/
def scanB (f : List Char → Bool) : List Char → Bool
  | [] => f []
  | c :: cs => f (c :: cs) || scanB f cs

/-- The 50-state (plus DC) name-to-abbreviation table, in source order. -/
def stateNames : List (String × String) :=
  [("alabama", "AL"), ("alaska", "AK"), ("arizona", "AZ"), ("arkansas", "AR"),
   ("california", "CA"), ("colorado", "CO"), ("connecticut", "CT"), ("delaware", "DE"),
   ("florida", "FL"), ("georgia", "GA"), ("hawaii", "HI"), ("idaho", "ID"),
   ("illinois", "IL"), ("indiana", "IN"), ("iowa", "IA"), ("kansas", "KS"),
   ("kentucky", "KY"), ("louisiana", "LA"), ("maine", "ME"), ("maryland", "MD"),
   ("massachusetts", "MA"), ("michigan", "MI"), ("minnesota", "MN"), ("mississippi", "MS"),
   ("missouri", "MO"), ("montana", "MT"), ("nebraska", "NE"), ("nevada", "NV"),
   ("new hampshire", "NH"), ("new jersey", "NJ"), ("new mexico", "NM"), ("new york", "NY"),
   ("north carolina", "NC"), ("north dakota", "ND"), ("ohio", "OH"), ("oklahoma", "OK"),
   ("oregon", "OR"), ("pennsylvania", "PA"), ("rhode island", "RI"), ("south carolina", "SC"),
   ("south dakota", "SD"), ("tennessee", "TN"), ("texas", "TX"), ("utah", "UT"),
   ("vermont", "VT"), ("virginia", "VA"), ("washington", "WA"), ("west virginia", "WV"),
   ("wisconsin", "WI"), ("wyoming", "WY"), ("district of columbia", "DC")]

/-- Match `,\s*<name>\b` at the head of the (lower-cased) list. -/
def pNameAt (nm : List Char) : List Char → Bool
  | ',' :: r =>
    let r2 := r.dropWhile isWsChar
    isPrefixL nm r2 &&
      (match r2.drop nm.length with
       | [] => true
       | c :: _ => !(isWordChar c))
  | _ => false

/-- `extract_state` from `standardize_addresses`. -/
def extract_state (addr : Option String) : String :=
  match addr with
  | none => "N/A"
  | some s =>
    if s = "N/A" then "N/A"
    else
      let l := s.toList
      match scanOpt p1At l with
      | some st => st
      | none =>
        match scanOpt p2At l with
        | some st => st
        | none =>
          let low := l.map Char.toLower
          match stateNames.find? (fun p => scanB (pNameAt p.1.toList) low) with
          | some p => p.2
          | none => "N/A"

/-- Match `,\s*([^,]+),\s*[A-Z]{2}` at the head, returning group 1 stripped.
Since neither `\s*` nor `[^,]+` can cross a comma, the group's closing comma
is the first comma of the remainder; backtracking lets `[^,]+` absorb
whitespace, so the match succeeds whenever that comma is at position ≥ 1 and
two capitals follow it (after whitespace), and the stripped group equals the
stripped prefix before that comma. -/
def cityAt : List Char → Option String
  | ',' :: r =>
    (match r.findIdx? (fun c => c == ',') with
     | some p =>
       if 1 ≤ p &&
          (match (r.drop (p + 1)).dropWhile isWsChar with
           | a :: b :: _ => isUpperAZ a && isUpperAZ b
           | _ => false)
       then some ((trimL (r.take p)).asString) else none
     | none => none)
  | _ => none

/-- Python `address.split(',')`: keeps empty segments. -/
def splitComma : List Char → List (List Char)
  | [] => [[]]
  | ',' :: cs => [] :: splitComma cs
  | c :: cs =>
    match splitComma cs with
    | [] => [[c]]
    | p :: ps => (c :: p) :: ps

/-- `extract_city` from `standardize_addresses`. -/
def extract_city (addr : Option String) : String :=
  match addr with
  | none => "N/A"
  | some s =>
    if s = "N/A" then "N/A"
    else
      let l := s.toList
      match scanOpt cityAt l with
      | some city => city
      | none =>
        let parts := splitComma l
        if 2 ≤ parts.length then (trimL (parts.reverse.getD 1 [])).asString
        else "N/A"

/-! ### Business-type inference (src/data_processor.py, fill_missing_business_types) -/

/-- Keyword chain of `determine_type`, over the lower-cased business name. -/
def inferType (nameCell : Option String) : String :=
  let n := (cellStr nameCell).toList.map Char.toLower
  if containsSub "cremation".toList n || containsSub "crematory".toList n then
    "Cremation Service"
  else if containsSub "memorial".toList n then
    (if containsSub "funeral".toList n then "Hybrid (Funeral & Memorial)"
     else "Memorial Service")
  else if containsSub "mortuary".toList n then "Mortuary"
  else if containsSub "cemetery".toList n then "Cemetery"
  else if containsSub "chapel".toList n then "Funeral Chapel"
  else if containsSub "funeral".toList n then "Funeral Home"
  else "Funeral Services"

/-- `determine_type` from `fill_missing_business_types`. -/
def determine_type (typeCell nameCell : Option String) : String :=
  match typeCell with
  | some t => if t ≠ "N/A" then t else inferType nameCell
  | none => inferType nameCell

/-! ### Matching key and completeness score (src/data_processor.py, remove_duplicates) -/

/-- `generate_matching_key`: stop-word-stripped lower-cased name, `|`, first
comma segment of the lower-cased address, whitespace collapsed. -/
def generate_matching_key (bn addr : Option String) : String :=
  let name0 := (cellStr bn).toList.map Char.toLower
  let name1 := replaceWordCI ["funeral", "home", "services", "inc", "llc"] "" name0
  let name := collapseWs name1
  let a0 := (cellStr addr).toList.map Char.toLower
  let a1 := if a0.contains ',' then (splitComma a0).headD [] else a0
  let a2 := collapseWs a1
  (name ++ '|' :: a2).asString

/-- `completeness_score`: count of cells that are truthy and not the
sentinel `"N/A"` or the string `"nan"` (the `matching_key` column is not a
cell in this model, matching the `continue` in the source). -/
def completeness_score (r : List (Option String)) : Nat :=
  r.countP (fun c =>
    let v := cellStr c
    v != "" && v != "N/A" && v != "nan")

/-- `Series.idxmax` over a group: the first element attaining the maximum. -/
def argmaxFirst (f : α → Nat) : List α → Option α
  | [] => none
  | a :: rest =>
    match argmaxFirst f rest with
    | none => some a
    | some b => if f a < f b then some b else some a

/-! ### The DataFrame model

A pandas DataFrame is a list of column names plus rows of cells aligned with
the columns; a cell is `Option String`, with `none` modelling NaN. -/

/-- A row of cells. -/
abbrev Row := List (Option String)

/-- The DataFrame model. -/
structure Table where
  cols : List String
  rows : List Row
deriving DecidableEq, Repr

/-- `df.empty`: true when either axis has length zero. -/
def isEmptyDf (df : Table) : Bool := df.rows.isEmpty || df.cols.isEmpty

/-- Index of the first occurrence of a name in a list of column names. -/
def idxOf? (c : String) : List String → Option Nat
  | [] => none
  | x :: xs => if x == c then some 0 else (idxOf? c xs).map (· + 1)

/-- Index of a column by name (first occurrence). -/
def colIdx (df : Table) (c : String) : Option Nat := idxOf? c df.cols

/-- The cells of one column, in row order (empty if the column is absent). -/
def getColCells (df : Table) (c : String) : List (Option String) :=
  match colIdx df c with
  | some j => df.rows.map (fun r => r.getD j none)
  | none => []

/-- `df[c] = df[c].apply(f)`: rewrite one column cell-wise (no-op if absent). -/
def mapCol (df : Table) (c : String) (f : Option String → Option String) : Table :=
  match colIdx df c with
  | some j => { df with rows := df.rows.map (fun r => r.set j (f (r.getD j none))) }
  | none => df

/-- `df[c] = vals`: overwrite a column, or append it if absent. -/
def setColVals (df : Table) (c : String) (vals : List (Option String)) : Table :=
  match colIdx df c with
  | some j => { df with rows := df.rows.zipWith (fun r v => r.set j v) vals }
  | none => { cols := df.cols ++ [c], rows := df.rows.zipWith (fun r v => r ++ [v]) vals }

/-- `df[c] = "N/A"`: append a constant column. -/
def addColConst (df : Table) (c : String) (v : Option String) : Table :=
  { cols := df.cols ++ [c], rows := df.rows.map (fun r => r ++ [v]) }

/-- All rows have exactly one cell per column. -/
def Aligned (df : Table) : Prop := ∀ r ∈ df.rows, r.length = df.cols.length

instance (df : Table) : Decidable (Aligned df) := by
  unfold Aligned; infer_instance

/-! ### standardize_column_names -/

/-- The `standard_columns` synonym table, in source order. -/
def standard_columns : List (String × String) :=
  [("business name", "Business Name"), ("business_name", "Business Name"),
   ("name", "Business Name"), ("company", "Business Name"),
   ("company name", "Business Name"),
   ("type", "Type"), ("business type", "Type"), ("business_type", "Type"),
   ("category", "Type"),
   ("address", "Address"), ("full address", "Address"), ("full_address", "Address"),
   ("location", "Address"),
   ("phone", "Phone"), ("phone number", "Phone"), ("phone_number", "Phone"),
   ("telephone", "Phone"), ("tel", "Phone"),
   ("email", "Email"), ("email address", "Email"), ("email_address", "Email"),
   ("contact email", "Email"),
   ("website", "Website"), ("web", "Website"), ("url", "Website"),
   ("web address", "Website"), ("web_address", "Website"),
   ("contact", "Contact Person"), ("contact person", "Contact Person"),
   ("contact_person", "Contact Person"), ("primary contact", "Contact Person"),
   ("social", "Social Media"), ("social media", "Social Media"),
   ("social_media", "Social Media"), ("social links", "Social Media"),
   ("social_links", "Social Media"),
   ("size", "Size"), ("business size", "Size"), ("company size", "Size"),
   ("employees", "Size"),
   ("rating", "Google Rating"), ("google rating", "Google Rating"),
   ("google_rating", "Google Rating"), ("review rating", "Google Rating"),
   ("stars", "Google Rating"),
   ("state", "State"), ("st", "State"), ("province", "State"),
   ("city", "City"), ("town", "City"), ("locality", "City"),
   ("source", "Source"), ("data source", "Source"), ("data_source", "Source")]

/-- Python `str.lower()` over ASCII. -/
def lowerStr (s : String) : String := (s.toList.map Char.toLower).asString

/-- `{col.lower(): col for col in df.columns}`: for a lower-cased key the
last column with that lower-casing wins. -/
def lastColForLower (cols : List String) (k : String) : Option String :=
  (cols.filter (fun c => lowerStr c == k)).getLast?

/-- The name column `c` is renamed to, per `renamed_columns` in the source:
`c` is renamed when its lower-casing is a synonym key whose standard spelling
differs from `c`, and `c` is the dictionary representative of that key. -/
def renameTarget (cols : List String) (c : String) : String :=
  match standard_columns.find? (fun p => p.1 == lowerStr c) with
  | some p =>
    if p.2 != c && lastColForLower cols (lowerStr c) == some c then p.2 else c
  | none => c

/-- The `required_columns` list ensured by `standardize_column_names`
(note: `Source` is not in it, and `Rating` is spelled `Google Rating`). -/
def required_columns : List String :=
  ["Business Name", "Type", "Address", "Phone", "Email", "Website",
   "Contact Person", "Social Media", "Size", "Google Rating", "State", "City"]

/-- One step of the required-column loop: add the column sentinel-filled if
it is missing. -/
def ensureCol (d : Table) (c : String) : Table :=
  if d.cols.contains c then d else addColConst d c (some "N/A")

/-- `standardize_column_names`: rename synonym columns, then append each
missing required column filled with the sentinel. -/
def standardize_column_names (df : Table) : Table :=
  let renamed : Table := { cols := df.cols.map (renameTarget df.cols), rows := df.rows }
  required_columns.foldl ensureCol renamed

/-! ### remove_duplicates -/

/-- `df.drop_duplicates()`: drop rows identical to an earlier row, keeping
the first occurrence (pandas treats NaNs as equal here). -/
def dropDupsSeen (seen : List Row) : List Row → List Row
  | [] => []
  | r :: rs => if seen.contains r then dropDupsSeen seen rs else r :: dropDupsSeen (r :: seen) rs

/-- Keep the first occurrence of each distinct element. -/
def dedupFirst (l : List Row) : List Row := dropDupsSeen [] l

/-- Keep the first occurrence of each distinct string. -/
def dedupFirstStr (seen : List String) : List String → List String
  | [] => []
  | x :: xs => if seen.contains x then dedupFirstStr seen xs else x :: dedupFirstStr (x :: seen) xs

/-- Lexicographic order on code points, as Python compares strings. -/
def lexLt : List Char → List Char → Bool
  | [], [] => false
  | [], _ :: _ => true
  | _ :: _, [] => false
  | a :: as, b :: bs => if a == b then lexLt as bs else decide (a < b)

/-- Python string `<`. -/
def strLt (a b : String) : Bool := lexLt a.toList b.toList

/-- Insertion into a sorted list. -/
def insertSorted (k : String) : List String → List String
  | [] => [k]
  | x :: xs => if strLt k x then k :: x :: xs else x :: insertSorted k xs

/-- Ascending sort, modelling the key order of `df.groupby`. -/
def sortKeys (l : List String) : List String := l.foldr insertSorted []

/-- Read the cell of row `r` under column `c` of `df`. -/
def cellAt (df : Table) (r : Row) (c : String) : Option String :=
  match colIdx df c with
  | some j => r.getD j none
  | none => none

/-- The matching key of a row (reads `Business Name` and `Address`). -/
def rowKey (df : Table) (r : Row) : String :=
  generate_matching_key (cellAt df r "Business Name") (cellAt df r "Address")

/-- The row kept from one matching-key group: a singleton group keeps its
row, a larger group keeps `scores.idxmax()`. -/
def keptOf (g : List Row) : Option Row :=
  if g.length = 1 then g.head? else argmaxFirst completeness_score g

/-- The matching-key groups after exact deduplication, in the sorted key
order in which `df.groupby('matching_key')` iterates; each group keeps the
original row order. -/
def fuzzyGroups (df : Table) : List (List Row) :=
  let rows1 := dedupFirst df.rows
  let keys := sortKeys (dedupFirstStr [] (rows1.map (rowKey df)))
  keys.map (fun k => rows1.filter (fun r => rowKey df r == k))

/-- `remove_duplicates`: exact deduplication, then one kept row per
matching-key group (the temporary `matching_key` column never appears as a
cell in this model, matching its addition and removal in the source). -/
def remove_duplicates (df : Table) : Table :=
  { cols := df.cols, rows := (fuzzyGroups df).filterMap keptOf }

/-! ### standardize_addresses -/

/-- The components `usaddress.tag` can return, as read by the source. -/
structure AddressParsed where
  addressNumber : String := ""
  streetName : String := ""
  streetNamePostType : String := ""
  occupancyType : String := ""
  occupancyIdentifier : String := ""
  placeName : String := ""
  stateName : String := ""
  zipCode : String := ""
deriving DecidableEq, Repr

/-- Reassembly of a parsed address, exactly as the source concatenates and
strips the components. -/
def reconstructAddress (p : AddressParsed) (orig : String) : String :=
  let street :=
    (trimL (p.addressNumber.toList ++ ' ' :: p.streetName.toList ++
            ' ' :: p.streetNamePostType.toList)).asString
  let street2 :=
    if p.occupancyType != "" && p.occupancyIdentifier != "" then
      street ++ ", " ++ p.occupancyType ++ " " ++ p.occupancyIdentifier
    else street
  let csz0 := if p.placeName != "" then p.placeName else ""
  let csz1 :=
    if p.stateName != "" then
      (if csz0 != "" then csz0 ++ ", " ++ p.stateName else p.stateName)
    else csz0
  let csz := if p.zipCode != "" then csz1 ++ " " ++ p.zipCode else csz1
  if street2 != "" && csz != "" then street2 ++ ", " ++ csz
  else if street2 != "" then street2
  else if csz != "" then csz
  else orig

/-- `standardize_address`, parameterized by the external `usaddress.tag`
parser: `tag t = none` models the exception path, whose fallback is the
trimmed original string. -/
def standardize_address (tag : String → Option AddressParsed)
    (addr : Option String) : String :=
  match addr with
  | none => "N/A"
  | some s =>
    if s = "N/A" then "N/A"
    else
      let t := (trimL s.toList).asString
      match tag t with
      | some p => reconstructAddress p t
      | none => t

/-- A `usaddress.tag` stub on which every parse raises, selecting the
source's exception fallback (the trimmed original string).  Used to
instantiate concrete tables whose address cells are unaffected by parsing. -/
def noParse : String → Option AddressParsed := fun _ => none

/-- Per-cell address rewrite of `standardize_addresses`. -/
def addrStage1 (tag : String → Option AddressParsed) (df : Table) : Table :=
  mapCol df "Address" (fun c => some (standardize_address tag c))

/-- The gate `'State' not in df.columns or df['State'].isna().all()`:
note it tests for NaN, not for the `"N/A"` sentinel string. -/
def stateGate (df : Table) : Bool :=
  !(df.cols.contains "State") || (getColCells df "State").all (fun c => c == none)

/-- Conditional `State` back-extraction from `Address`. -/
def stateWrite (df : Table) : Table :=
  if stateGate df then
    setColVals df "State" ((getColCells df "Address").map (fun a => some (extract_state a)))
  else df

/-- The gate `'City' not in df.columns or df['City'].isna().all()`. -/
def cityGate (df : Table) : Bool :=
  !(df.cols.contains "City") || (getColCells df "City").all (fun c => c == none)

/-- Conditional `City` back-extraction from `Address`. -/
def cityWrite (df : Table) : Table :=
  if cityGate df then
    setColVals df "City" ((getColCells df "Address").map (fun a => some (extract_city a)))
  else df

/-- `standardize_addresses`. -/
def standardize_addresses (tag : String → Option AddressParsed) (df : Table) : Table :=
  if !(df.cols.contains "Address") then df
  else cityWrite (stateWrite (addrStage1 tag df))

/-! ### The remaining cleaning stages and the pipeline -/

/-- `clean_business_names`: `fillna("Unknown Business")` then `clean_name`. -/
def clean_business_names (df : Table) : Table :=
  if !(df.cols.contains "Business Name") then df
  else mapCol df "Business Name"
    (fun c => some (clean_name (some (c.getD "Unknown Business"))))

/-- `clean_phone_numbers`. -/
def clean_phone_numbers (df : Table) : Table :=
  if !(df.cols.contains "Phone") then df
  else mapCol df "Phone" (fun c => some (standardize_phone c))

/-- `extract_emails`. -/
def extract_emails (df : Table) : Table :=
  if !(df.cols.contains "Email") then df
  else mapCol df "Email" (fun c => some (validate_email c))

/-- `clean_websites`. -/
def clean_websites (df : Table) : Table :=
  if !(df.cols.contains "Website") then df
  else mapCol df "Website" (fun c => some (standardize_url c))

/-- `fill_missing_business_types`. -/
def fill_missing_business_types (df : Table) : Table :=
  if !(df.cols.contains "Type") || !(df.cols.contains "Business Name") then df
  else
    match colIdx df "Type", colIdx df "Business Name" with
    | some ti, some bi =>
      let f : Row → Row :=
        fun r => r.set ti (some (determine_type (r.getD ti none) (r.getD bi none)))
      { df with rows := df.rows.map f }
    | _, _ => df

/-- `extract_social_media_links`: only ensures the column exists. -/
def extract_social_media_links (df : Table) : Table :=
  if df.cols.contains "Social Media" then df
  else addColConst df "Social Media" (some "N/A")

/-- `clean_data`: the full pipeline, in source order; an empty frame is
returned unchanged without running any stage. -/
def clean_data (tag : String → Option AddressParsed) (df : Table) : Table :=
  if isEmptyDf df then df
  else
    extract_social_media_links
      (fill_missing_business_types
        (clean_websites
          (extract_emails
            (clean_phone_numbers
              (standardize_addresses tag
                (clean_business_names
                  (remove_duplicates
                    (standardize_column_names df))))))))

/-- `__init__`: a failed `read_csv` is replaced by an empty frame. -/
def load_input (result : Option Table) : Table :=
  match result with
  | some df => df
  | none => { cols := [], rows := [] }

/-! ### Specification-side definitions

`phoneSpec` follows the wording of the phone claim, to be compared with the
embedded `standardize_phone`. -/

/-- Modelled from the claim's wording: fewer than ten digits pass through as
the trimmed original; exactly ten digits are formatted; eleven digits with a
leading one drop it; otherwise the last ten digits are kept and formatted. -/
def phoneSpec (s : String) : String :=
  let d := digitsL s.toList
  if d.length < 10 then (trimL s.toList).asString
  else if d.length = 10 then (fmtPhone d).asString
  else if d.length = 11 && d.headD ' ' == '1' then (fmtPhone (d.drop 1)).asString
  else (fmtPhone (d.drop (d.length - 10))).asString

/-! ### Concrete tables used by individual claims -/

/-- Two rows whose raw matching keys differ although their canonicalized
matching keys coincide (`Fnrl` expands to `Funeral`, which the key strips). -/
def c1Table : Table :=
  Table.mk ["Business Name", "Address"]
    [[some "Abc Fnrl", some "1 Main St"], [some "Abc Funeral", some "1 Main St"]]

/-- One row whose business name triggers the `Cremation` suffix branch. -/
def c3Table : Table :=
  Table.mk ["Business Name", "Address"] [[some "Alpha Cremation", some "N/A"]]

/-- One row carrying a column outside the synonym table. -/
def c6Table : Table :=
  Table.mk ["Business Name", "foo"] [[some "Abc", some "bar"]]

/-- One row whose address carries an extractable state, with no source
`State` column (so the reconciler inserts a sentinel-filled one). -/
def c7Table : Table :=
  Table.mk ["Business Name", "Address"]
    [[some "Abc", some "123 Main St, Springfield, IL 62704"]]

/-- One row with a phone number of fewer than ten digits. -/
def c9Table : Table :=
  Table.mk ["Business Name", "Phone"] [[some "Abc", some "12345"]]

/-- A zero-row table with a non-canonical column. -/
def c10Table : Table := Table.mk ["foo"] []

/-- Four rows: one exact duplicate pair, and one fuzzy pair whose second
record is more complete. -/
def c2Table : Table :=
  Table.mk ["Business Name", "Address", "Email"]
    [[some "ABC Funeral Home", some "9 Oak St, X", some "N/A"],
     [some "Abc Funeral Home Inc", some "9 Oak St, Y", some "a@b.co"],
     [some "Zed Mortuary", some "1 Z St", none],
     [some "ABC Funeral Home", some "9 Oak St, X", some "N/A"]]

/-! ### Claims -/

/-- C1, counterexample: in `clean_data` the duplicate resolver runs before
name canonicalization, so its keys are computed from raw values: these two
rows have equal canonicalized matching keys yet both survive the pipeline
(their raw keys differ), contradicting the claim that keys are computed from
already-canonicalized values. -/
theorem c1_counterexample :
    (clean_data noParse c1Table).rows.length = 2 ∧
    generate_matching_key (some (clean_name (some "Abc Fnrl"))) (some "1 Main St") =
      generate_matching_key (some (clean_name (some "Abc Funeral"))) (some "1 Main St") ∧
    generate_matching_key (some "Abc Fnrl") (some "1 Main St") ≠
      generate_matching_key (some "Abc Funeral") (some "1 Main St") := by
  refine ⟨by decide, by decide, by decide⟩

/-- C3, code bug: the pipeline is not idempotent.  A second run of
`clean_data` on its own output changes the business name again, because the
`Cremation` branch of `clean_name` re-appends `" Services"` (the
already-appended suffix passes none of the checks that suppress it). -/
theorem c3_second_run_changes_name :
    getColCells (clean_data noParse c3Table) "Business Name" =
      [some "Alpha Cremation Services"] ∧
    getColCells (clean_data noParse (clean_data noParse c3Table)) "Business Name" =
      [some "Alpha Cremation Services Services"] := by
  refine ⟨by decide, by decide⟩

/-- C5, counterexample: a whitespace-only business name canonicalizes to the
empty string, not to `"Unknown Business"`, so `BusinessName` can be empty
after canonicalization. -/
theorem c5_counterexample :
    clean_name (some " ") = "" ∧ clean_name (some " ") ≠ "Unknown Business" := by
  refine ⟨by decide, by decide⟩

/-- C6, counterexample: the output columns are not exactly the canonical
field set: a source column outside the synonym table survives the pipeline,
and `Source` is never ensured. -/
theorem c6_counterexample :
    "foo" ∈ (clean_data noParse c6Table).cols ∧
    "Source" ∉ (clean_data noParse c6Table).cols := by
  refine ⟨by decide, by decide⟩

/-- C7, counterexample: the reconciler inserted `State` filled with the
string sentinel, the address carries an extractable state, and yet the
pipeline leaves `State` as the sentinel — the gate tests `isna()`, which is
false on the sentinel string, so extraction does not run. -/
theorem c7_counterexample :
    getColCells (clean_data noParse c7Table) "State" = [some "N/A"] ∧
    extract_state (some "123 Main St, Springfield, IL 62704") = "IL" := by
  refine ⟨by decide, by decide⟩

/-- C8, counterexample: the email pattern is start-anchored, so (a) a prefix
match returns the whole string even with trailing junk, which is not itself
an exact match of the pattern, and (b) an e-mail strictly inside the string
is never extracted (the fallback search uses the same anchored pattern),
although the claimed unanchored first occurrence exists. -/
theorem c8_counterexample :
    validate_email (some "a@b.co x") = "a@b.co x" ∧
    emailFullMatch "a@b.co x" = false ∧
    validate_email (some "contact: a@b.co") = "N/A" ∧
    searchEmail "contact: a@b.co".toList = some "a@b.co".toList := by
  refine ⟨by decide, by decide, by decide, by decide⟩

/-- C9, counterexample: a phone value with fewer than ten digits passes
through the pipeline unchanged, so an output `Phone` value can be neither
the sentinel nor of the form `(XXX) XXX-XXXX`. -/
theorem c9_counterexample :
    getColCells (clean_data noParse c9Table) "Phone" = [some "12345"] ∧
    isPhoneFmt "12345" = false ∧ ("12345" : String) ≠ "N/A" := by
  refine ⟨by decide, by decide, by decide⟩

/-- C10, counterexample: `clean_data` returns an empty frame unchanged, so
on a zero-row input no stage runs and the schema reconciler does not produce
the canonical columns. -/
theorem c10_counterexample :
    clean_data noParse c10Table = c10Table ∧
    "Business Name" ∉ (clean_data noParse c10Table).cols := by
  refine ⟨by decide, by decide⟩

/-- C10, amended: a failed load yields the empty frame, and `clean_data` on
any empty frame (zero rows or zero columns) returns it unchanged — no stage
runs at all, so the columns are not reconciled to the canonical set. -/
theorem c10_empty_passthrough :
    load_input none = Table.mk [] [] ∧
    ∀ (tag : String → Option AddressParsed) (df : Table),
      isEmptyDf df = true → clean_data tag df = df := by
  refine ⟨rfl, ?_⟩
  intro tag df h
  simp [clean_data, h]

/-- C10, witness: a concrete zero-row table passes through unchanged. -/
theorem c10_witness :
    clean_data noParse (Table.mk ["x", "y"] []) = Table.mk ["x", "y"] [] :=
  c10_empty_passthrough.2 noParse (Table.mk ["x", "y"] []) (by decide)

/-! ### C4: phone standardization -/

/-- Every character kept by `digitsL` is a digit. -/
theorem digitsL_isDigit {l : List Char} {c : Char} (h : c ∈ digitsL l) :
    c.isDigit = true := (List.mem_filter.mp h).2

/-- Formatting any ten digits yields a `(XXX) XXX-XXXX` string. -/
theorem isPhoneFmt_fmtPhone (d : List Char) (hlen : d.length = 10)
    (hd : ∀ c ∈ d, c.isDigit = true) : isPhoneFmt (fmtPhone d).asString = true := by
  rcases d with _ | ⟨c0, _ | ⟨c1, _ | ⟨c2, _ | ⟨c3, _ | ⟨c4, _ | ⟨c5, _ | ⟨c6, _ | ⟨c7,
    _ | ⟨c8, _ | ⟨c9, _ | ⟨c10, d⟩⟩⟩⟩⟩⟩⟩⟩⟩⟩⟩
  all_goals try (exfalso; revert hlen; simp; done)
  simp only [List.mem_cons, forall_eq_or_imp, List.not_mem_nil, false_implies,
    and_true, implies_true] at hd
  obtain ⟨h0, h1, h2, h3, h4, h5, h6, h7, h8, h9⟩ := hd
  simp [fmtPhone, isPhoneFmt, List.asString, String.toList, h0, h1, h2, h3, h4,
    h5, h6, h7, h8, h9, List.getD]

/-- The embedded phone cleaner agrees with the claim's description. -/
theorem standardize_phone_eq_phoneSpec (s : String) :
    standardize_phone (some s) = phoneSpec s := by
  by_cases hs : s = "N/A"
  · subst hs; decide
  · simp only [standardize_phone, phoneSpec, hs, if_false]
    set d := digitsL s.toList with hdd
    by_cases h1 : d.length < 10
    · simp [h1]
    · by_cases h11 : d.length = 11
      · by_cases hh : d.head?.getD ' ' = '1'
        · have hcut : ¬ (10 < d.tail.length) := by
            simp [List.length_tail, h11]
          simp [h1, h11, hh, hcut, List.drop_one]
        · have hgt : 10 < d.length := by omega
          have hone : d.length - 10 = 1 := by omega
          simp [h1, h11, hh, hgt, hone]
      · by_cases h10 : d.length = 10
        · have hcut : ¬ (10 < d.length) := by omega
          simp [h1, h11, h10, hcut]
        · have hgt : 10 < d.length := by omega
          simp [h1, h11, h10, hgt]

/-- When at least ten digits are present, the claim's description formats
some ten digits. -/
theorem phoneSpec_formats (s : String) (h10 : 10 ≤ (digitsL s.toList).length) :
    ∃ d10, d10.length = 10 ∧ (∀ c ∈ d10, c.isDigit = true) ∧
      phoneSpec s = (fmtPhone d10).asString := by
  unfold phoneSpec
  set d := digitsL s.toList with hdd
  have hdig : ∀ c ∈ d, c.isDigit = true := fun c hc => digitsL_isDigit hc
  have h1 : ¬ d.length < 10 := by omega
  by_cases h2 : d.length = 10
  · exact ⟨d, h2, hdig, by simp [h1, h2]⟩
  · by_cases h3 : (decide (d.length = 11) && (d.headD ' ' == '1')) = true
    · have h11 : d.length = 11 := by
        have := (Bool.and_eq_true _ _).mp h3
        simpa using this.1
      refine ⟨d.drop 1, ?_, fun c hc => hdig c (List.drop_subset 1 d hc), ?_⟩
      · simp [List.length_drop, h11]
      · simp only [h1, if_false, h2, h3, if_true]
    · refine ⟨d.drop (d.length - 10), ?_, fun c hc => hdig c (List.drop_subset _ d hc), ?_⟩
      · simp only [List.length_drop]; omega
      · have h3' : (decide (d.length = 11) && (d.headD ' ' == '1')) = false := by
          simpa using h3
        simp only [h1, if_false, h2, h3', Bool.false_eq_true, if_true]

/-- C4: `standardize_phone` equals the claim's description, and any input
with at least ten digits is formatted as `(XXX) XXX-XXXX`. -/
theorem c4_phone_standardization (s : String) :
    standardize_phone (some s) = phoneSpec s ∧
    (10 ≤ (digitsL s.toList).length →
      isPhoneFmt (standardize_phone (some s)) = true) := by
  refine ⟨standardize_phone_eq_phoneSpec s, fun h10 => ?_⟩
  obtain ⟨d10, hl, hd, he⟩ := phoneSpec_formats s h10
  rw [standardize_phone_eq_phoneSpec s, he]
  exact isPhoneFmt_fmtPhone d10 hl hd

/-- C4, witness: an eleven-digit number with a leading one is formatted. -/
theorem c4_witness :
    isPhoneFmt (standardize_phone (some "1 (555) 123-4567")) = true :=
  (c4_phone_standardization "1 (555) 123-4567").2 (by decide)

/-! ### C5: the canonicalized business name -/

/-- Every word produced by the splitter is nonempty. -/
theorem wordsAux_mem_ne_nil : ∀ (l acc : List Char), ∀ w ∈ wordsAux l acc, w ≠ [] := by
  intro l
  induction l with
  | nil =>
    intro acc w hw
    rcases acc with _ | ⟨a, acc⟩
    · simp [wordsAux] at hw
    · simp [wordsAux] at hw
      subst hw; simp
  | cons c cs ih =>
    intro acc w hw
    by_cases hws : isWsChar c = true
    · rcases acc with _ | ⟨a, acc⟩
      · simp [wordsAux, hws] at hw
        exact ih [] w hw
      · simp [wordsAux, hws] at hw
        rcases hw with rfl | hw
        · simp
        · exact ih [] w hw
    · simp only [wordsAux, hws, Bool.false_eq_true, if_false] at hw
      exact ih (c :: acc) w hw

/-- The splitter yields a word as soon as a non-whitespace character exists
(or a word is already being accumulated). -/
theorem wordsAux_ne_nil : ∀ (l acc : List Char),
    (∃ c ∈ l, isWsChar c = false) ∨ acc ≠ [] → wordsAux l acc ≠ [] := by
  intro l
  induction l with
  | nil =>
    intro acc h
    rcases h with ⟨c, hc, _⟩ | h
    · simp at hc
    · rcases acc with _ | ⟨a, acc⟩
      · cases h rfl
      · simp [wordsAux]
  | cons c cs ih =>
    intro acc h
    by_cases hws : isWsChar c = true
    · rcases acc with _ | ⟨a, acc⟩
      · simp only [wordsAux, hws, if_true, List.isEmpty_nil]
        apply ih
        left
        rcases h with ⟨d, hd, hdw⟩ | h
        · rcases List.mem_cons.mp hd with rfl | hd
          · rw [hws] at hdw; cases hdw
          · exact ⟨d, hd, hdw⟩
        · cases h rfl
      · simp [wordsAux, hws]
    · simp only [wordsAux, hws, Bool.false_eq_true, if_false]
      apply ih
      right; simp

/-- Joining a nonempty list of nonempty words is nonempty. -/
theorem joinSp_ne_nil : ∀ ws : List (List Char), ws ≠ [] →
    (∀ w ∈ ws, w ≠ []) → joinSp ws ≠ [] := by
  intro ws h hall
  rcases ws with _ | ⟨w, ws⟩
  · cases h rfl
  · rcases ws with _ | ⟨w2, ws⟩
    · simpa [joinSp] using hall w (by simp)
    · simp [joinSp]

/-- Capitalizing a nonempty word is nonempty. -/
theorem capWord_ne_nil (w : List Char) (h : w ≠ []) : capWord w ≠ [] := by
  rcases w with _ | ⟨c, cs⟩
  · cases h rfl
  · simp [capWord]

/-- The word-boundary rewriter maps nonempty input to nonempty output when
the replacement is nonempty. -/
theorem rwAux_ne_nil (targets : List (List Char)) (repl : List Char)
    (hrepl : repl ≠ []) : ∀ (fuel : Nat) (lb : Bool) (l : List Char), l ≠ [] →
    rwAux targets repl fuel lb l ≠ [] := by
  intro fuel lb l hl
  rcases l with _ | ⟨c, cs⟩
  · cases hl rfl
  · rcases fuel with _ | fuel
    · simp [rwAux]
    · rw [rwAux]
      rcases pickTarget targets lb (c :: cs) with _ | t
      · simp
      · simp [hrepl]

/-- The head of a `dropWhile` result fails the predicate. -/
theorem dropWhile_head_false {p : Char → Bool} :
    ∀ (l : List Char) (c : Char) (cs : List Char),
    l.dropWhile p = c :: cs → p c = false := by
  intro l
  induction l with
  | nil => intro c cs h; cases h
  | cons a as ih =>
    intro c cs h
    by_cases hp : p a = true
    · rw [List.dropWhile_cons_of_pos hp] at h
      exact ih c cs h
    · rw [List.dropWhile_cons_of_neg hp] at h
      cases h
      simpa using hp

/-- A trailing character failing the predicate survives `dropWhile`. -/
theorem mem_dropWhile_append_last {p : Char → Bool} :
    ∀ (z : List Char) (c : Char), p c = false → c ∈ (z ++ [c]).dropWhile p := by
  intro z c hc
  induction z with
  | nil => simp [List.dropWhile, hc]
  | cons a z ih =>
    by_cases hp : p a = true
    · simpa [List.dropWhile_cons_of_pos hp] using ih
    · rw [List.cons_append, List.dropWhile_cons_of_neg hp]
      simp [List.mem_append]

/-- A nonempty trimmed string contains a non-whitespace character. -/
theorem trimL_has_nonws (l : List Char) (h : trimL l ≠ []) :
    ∃ c ∈ trimL l, isWsChar c = false := by
  unfold trimL at *
  rcases hy : l.dropWhile isWsChar with _ | ⟨c, ys⟩
  · rw [hy] at h; simp at h
  · have hc : isWsChar c = false := dropWhile_head_false l c ys hy
    refine ⟨c, ?_, hc⟩
    rw [List.mem_reverse]
    have : (c :: ys).reverse = ys.reverse ++ [c] := by simp
    rw [this]
    exact mem_dropWhile_append_last ys.reverse c hc

/-- `cleanNameCore` yields the empty name exactly on whitespace-only input. -/
theorem cleanNameCore_eq_nil_iff (l : List Char) :
    cleanNameCore l = [] ↔ trimL l = [] := by
  constructor
  · intro h
    by_contra htrim
    obtain ⟨c, hc, hcw⟩ := trimL_has_nonws l htrim
    have hwords : pyWordsL (trimL l) ≠ [] :=
      wordsAux_ne_nil (trimL l) [] (Or.inl ⟨c, hc, hcw⟩)
    have h1 : titleCase (trimL l) ≠ [] := by
      unfold titleCase
      apply joinSp_ne_nil
      · simpa using hwords
      · intro w hw
        obtain ⟨w0, hw0, rfl⟩ := List.mem_map.mp hw
        exact capWord_ne_nil w0 (wordsAux_mem_ne_nil (trimL l) [] w0 hw0)
    have h2 : replaceWordCI ["Fnrl"] "Funeral" (titleCase (trimL l)) ≠ [] :=
      rwAux_ne_nil _ _ (by decide) _ _ _ h1
    have h3 : replaceWordCI ["Svcs", "Svc"] "Services"
        (replaceWordCI ["Fnrl"] "Funeral" (titleCase (trimL l))) ≠ [] :=
      rwAux_ne_nil _ _ (by decide) _ _ _ h2
    have h4 : replaceWordCI ["Mem"] "Memorial"
        (replaceWordCI ["Svcs", "Svc"] "Services"
          (replaceWordCI ["Fnrl"] "Funeral" (titleCase (trimL l)))) ≠ [] :=
      rwAux_ne_nil _ _ (by decide) _ _ _ h3
    simp only [cleanNameCore] at h
    split_ifs at h <;> simp_all
  · intro h
    simp only [cleanNameCore, h]
    decide

/-- C5, amended: `clean_name` maps an absent or sentinel name to
`"Unknown Business"`; for any other value, the result is the empty string
exactly when the input is empty after trimming, so a whitespace-only (but
non-sentinel) name canonicalizes to the empty string rather than to
`"Unknown Business"`. -/
theorem c5_name_amended :
    (∀ x : Option String, (x = none ∨ x = some "N/A") →
      clean_name x = "Unknown Business") ∧
    (∀ s : String, s ≠ "N/A" →
      (clean_name (some s) = "" ↔ trimL s.toList = [])) := by
  constructor
  · rintro x (rfl | rfl) <;> rfl
  · intro s hs
    simp only [clean_name, hs, if_false]
    rw [show ((cleanNameCore s.toList).asString = "") ↔ cleanNameCore s.toList = []
        from by rw [String.ext_iff]; exact Iff.rfl]
    exact cleanNameCore_eq_nil_iff s.toList

/-- C5, witness: the sentinel maps to `"Unknown Business"`, and a
whitespace-only name maps to the empty string. -/
theorem c5_witness :
    clean_name (some "N/A") = "Unknown Business" ∧ clean_name (some "  ") = "" := by
  refine ⟨c5_name_amended.1 (some "N/A") (Or.inr rfl), ?_⟩
  exact (c5_name_amended.2 "  " (by decide)).mpr (by decide)

/-! ### C2: the duplicate resolver keeps the first most-complete row -/

/-- Specification of `argmaxFirst` (pandas `idxmax`): it returns a member
attaining the maximum, the first one to do so. -/
theorem argmaxFirst_spec {α : Type} (f : α → Nat) :
    ∀ (g : List α), g ≠ [] → ∃ keep, argmaxFirst f g = some keep ∧ keep ∈ g ∧
      (∀ r ∈ g, f r ≤ f keep) ∧
      ∃ i, g.get? i = some keep ∧
        ∀ j r, j < i → g.get? j = some r → f r < f keep := by
  intro g
  induction g with
  | nil => intro h; cases h rfl
  | cons a rest ih =>
    intro _
    rcases rest with _ | ⟨b, bs⟩
    · refine ⟨a, by simp [argmaxFirst], by simp, by simp, 0, by simp, ?_⟩
      intro j r hj
      omega
    · obtain ⟨keepR, hkR, hmemR, hmaxR, iR, hgetR, hfirstR⟩ :=
        ih (by simp)
      have hunf : argmaxFirst f (a :: b :: bs) =
          (match argmaxFirst f (b :: bs) with
           | none => some a
           | some c => if f a < f c then some c else some a) := rfl
      by_cases hlt : f a < f keepR
      · refine ⟨keepR, ?_, List.mem_cons_of_mem a hmemR, ?_, iR + 1, ?_, ?_⟩
        · rw [hunf, hkR]
          simp [hlt]
        · intro r hr
          rcases List.mem_cons.mp hr with rfl | hr
          · exact Nat.le_of_lt hlt
          · exact hmaxR r hr
        · simpa using hgetR
        · intro j r hj hget
          rcases j with _ | j
          · simp at hget; subst hget; exact hlt
          · exact hfirstR j r (by omega) (by simpa using hget)
      · refine ⟨a, ?_, by simp, ?_, 0, by simp, ?_⟩
        · rw [hunf, hkR]
          simp [hlt]
        · intro r hr
          rcases List.mem_cons.mp hr with rfl | hr
          · exact Nat.le_refl _
          · exact Nat.le_trans (hmaxR r hr) (Nat.le_of_not_lt hlt)
        · intro j r hj
          omega

/-- `keptOf` agrees with `argmaxFirst` on every nonempty group (the source's
singleton branch keeps the same row `idxmax` would). -/
theorem keptOf_eq_argmaxFirst (g : List Row) (h : g ≠ []) :
    keptOf g = argmaxFirst completeness_score g := by
  unfold keptOf
  rcases g with _ | ⟨r, rest⟩
  · cases h rfl
  · rcases rest with _ | ⟨r2, rest⟩
    · simp [argmaxFirst]
    · simp

/-- Membership survives sorted insertion. -/
theorem mem_insertSorted {a k : String} : ∀ (l : List String),
    a ∈ insertSorted k l → a = k ∨ a ∈ l := by
  intro l
  induction l with
  | nil => intro h; simpa [insertSorted] using h
  | cons x xs ih =>
    intro h
    by_cases hlt : strLt k x = true
    · simp only [insertSorted, hlt, if_true] at h
      rcases List.mem_cons.mp h with rfl | h
      · exact Or.inl rfl
      · exact Or.inr h
    · simp only [insertSorted, hlt, Bool.false_eq_true, if_false] at h
      rcases List.mem_cons.mp h with rfl | h
      · exact Or.inr (by simp)
      · rcases ih h with rfl | h
        · exact Or.inl rfl
        · exact Or.inr (List.mem_cons_of_mem _ h)

/-- Membership in the sorted key list implies membership in the input. -/
theorem mem_sortKeys {a : String} : ∀ (l : List String), a ∈ sortKeys l → a ∈ l := by
  intro l
  induction l with
  | nil => intro h; simp [sortKeys] at h
  | cons x xs ih =>
    intro h
    simp only [sortKeys, List.foldr_cons] at h
    rcases mem_insertSorted _ h with rfl | h
    · simp
    · exact List.mem_cons_of_mem _ (ih h)

/-- Deduplicated keys come from the input. -/
theorem mem_dedupFirstStr {a : String} : ∀ (seen l : List String),
    a ∈ dedupFirstStr seen l → a ∈ l := by
  intro seen l
  induction l generalizing seen with
  | nil => intro h; simp [dedupFirstStr] at h
  | cons x xs ih =>
    intro h
    by_cases hx : seen.contains x = true
    · simp only [dedupFirstStr, hx, if_true] at h
      exact List.mem_cons_of_mem _ (ih _ h)
    · simp only [dedupFirstStr, hx, Bool.false_eq_true, if_false] at h
      rcases List.mem_cons.mp h with rfl | h
      · simp
      · exact List.mem_cons_of_mem _ (ih _ h)

/-- Every matching-key group of `fuzzyGroups` is nonempty. -/
theorem fuzzyGroups_ne_nil (df : Table) (g : List Row) (hg : g ∈ fuzzyGroups df) :
    g ≠ [] := by
  unfold fuzzyGroups at hg
  obtain ⟨k, hk, rfl⟩ := List.mem_map.mp hg
  have hk2 : k ∈ (dedupFirst df.rows).map (rowKey df) :=
    mem_dedupFirstStr [] _ (mem_sortKeys _ hk)
  obtain ⟨r, hr, hrk⟩ := List.mem_map.mp hk2
  have : r ∈ (dedupFirst df.rows).filter (fun r => rowKey df r == k) :=
    List.mem_filter.mpr ⟨hr, by simp [hrk]⟩
  exact List.ne_nil_of_mem this

/-- C2: `remove_duplicates` keeps, from every matching-key group, exactly the
first row attaining the maximal completeness score; singleton groups keep
their single row. -/
theorem c2_resolver_keeps_first_max (df : Table) (g : List Row)
    (hg : g ∈ fuzzyGroups df) :
    (remove_duplicates df).rows = (fuzzyGroups df).filterMap keptOf ∧
    ∃ keep, keptOf g = some keep ∧ keep ∈ g ∧
      (∀ r ∈ g, completeness_score r ≤ completeness_score keep) ∧
      (∀ r, g = [r] → keep = r) ∧
      ∃ i, g.get? i = some keep ∧
        ∀ j r, j < i → g.get? j = some r →
          completeness_score r < completeness_score keep := by
  refine ⟨rfl, ?_⟩
  have hne := fuzzyGroups_ne_nil df g hg
  obtain ⟨keep, hk, hmem, hmax, i, hget, hfirst⟩ :=
    argmaxFirst_spec completeness_score g hne
  refine ⟨keep, ?_, hmem, hmax, ?_, i, hget, hfirst⟩
  · rw [keptOf_eq_argmaxFirst g hne]; exact hk
  · rintro r rfl
    simpa using hmem

/-! ### Table lemmas shared by the pipeline-level claims -/

/-- `contains` agrees with membership for string lists. -/
theorem containsStr_iff {l : List String} {a : String} :
    l.contains a = true ↔ a ∈ l := by
  simp [List.contains_iff_exists_mem_beq]

/-- A found column index points at the column name. -/
theorem idxOf?_of_mem {c : String} : ∀ (cols : List String), c ∈ cols →
    ∃ j, idxOf? c cols = some j := by
  intro cols
  induction cols with
  | nil => intro h; simp at h
  | cons x xs ih =>
    intro h
    by_cases hx : (x == c) = true
    · exact ⟨0, by simp [idxOf?, hx]⟩
    · have hc : c ∈ xs := by
        rcases List.mem_cons.mp h with rfl | h2
        · simp at hx
        · exact h2
      obtain ⟨j, hj⟩ := ih hc
      exact ⟨j + 1, by simp [idxOf?, hx, hj]⟩

/-- `mapCol` leaves the column list unchanged. -/
theorem cols_mapCol (df : Table) (c : String) (f : Option String → Option String) :
    (mapCol df c f).cols = df.cols := by
  unfold mapCol
  cases colIdx df c <;> rfl

/-- `mapCol` preserves the number of rows. -/
theorem rows_length_mapCol (df : Table) (c : String)
    (f : Option String → Option String) :
    (mapCol df c f).rows.length = df.rows.length := by
  unfold mapCol
  cases colIdx df c <;> simp

/-- A present column yields one cell per row. -/
theorem getColCells_length_of_mem {df : Table} {c : String} (h : c ∈ df.cols) :
    (getColCells df c).length = df.rows.length := by
  obtain ⟨j, hj⟩ := idxOf?_of_mem df.cols h
  unfold getColCells colIdx
  rw [hj]
  simp

/-- `setColVals` with one value per row preserves the number of rows. -/
theorem rows_length_setColVals (df : Table) (c : String)
    (vals : List (Option String)) (h : vals.length = df.rows.length) :
    (setColVals df c vals).rows.length = df.rows.length := by
  unfold setColVals
  cases colIdx df c <;> simp [h]

/-- `addColConst` preserves the number of rows. -/
theorem rows_length_addColConst (df : Table) (c : String) (v : Option String) :
    (addColConst df c v).rows.length = df.rows.length := by
  simp [addColConst]

/-- `setColVals` keeps every existing column. -/
theorem cols_setColVals_mem {df : Table} {c : String} {vals : List (Option String)}
    {x : String} (h : x ∈ df.cols) : x ∈ (setColVals df c vals).cols := by
  unfold setColVals
  cases colIdx df c
  · exact List.mem_append_left _ h
  · exact h

/-- `stateWrite` preserves the number of rows when `Address` is present. -/
theorem rows_length_stateWrite {df : Table} (hA : "Address" ∈ df.cols) :
    (stateWrite df).rows.length = df.rows.length := by
  unfold stateWrite
  split
  · exact rows_length_setColVals _ _ _ (by simp [getColCells_length_of_mem hA])
  · rfl

/-- `cityWrite` preserves the number of rows when `Address` is present. -/
theorem rows_length_cityWrite {df : Table} (hA : "Address" ∈ df.cols) :
    (cityWrite df).rows.length = df.rows.length := by
  unfold cityWrite
  split
  · exact rows_length_setColVals _ _ _ (by simp [getColCells_length_of_mem hA])
  · rfl

/-- `stateWrite` keeps every existing column. -/
theorem cols_stateWrite_mem {df : Table} {x : String} (h : x ∈ df.cols) :
    x ∈ (stateWrite df).cols := by
  unfold stateWrite
  split
  · exact cols_setColVals_mem h
  · exact h

/-- `cityWrite` keeps every existing column. -/
theorem cols_cityWrite_mem {df : Table} {x : String} (h : x ∈ df.cols) :
    x ∈ (cityWrite df).cols := by
  unfold cityWrite
  split
  · exact cols_setColVals_mem h
  · exact h

/-- `standardize_addresses` preserves the number of rows. -/
theorem rows_length_standardize_addresses (tag : String → Option AddressParsed)
    (df : Table) :
    (standardize_addresses tag df).rows.length = df.rows.length := by
  unfold standardize_addresses
  by_cases hA : df.cols.contains "Address" = true
  · have hA' : "Address" ∈ df.cols := containsStr_iff.mp hA
    have h1 : "Address" ∈ (addrStage1 tag df).cols := by
      unfold addrStage1
      rw [cols_mapCol]
      exact hA'
    have h2 : "Address" ∈ (stateWrite (addrStage1 tag df)).cols :=
      cols_stateWrite_mem h1
    simp only [hA, Bool.not_true, Bool.false_eq_true, if_false]
    rw [rows_length_cityWrite h2, rows_length_stateWrite h1]
    unfold addrStage1
    exact rows_length_mapCol _ _ _
  · have hA2 : "Address" ∉ df.cols := fun hmem => hA (containsStr_iff.mpr hmem)
    simp [hA, hA2]

/-- `remove_duplicates` leaves the column list unchanged. -/
theorem cols_remove_duplicates (df : Table) :
    (remove_duplicates df).cols = df.cols := rfl

/-- `clean_business_names` preserves the number of rows. -/
theorem rows_length_clean_business_names (df : Table) :
    (clean_business_names df).rows.length = df.rows.length := by
  unfold clean_business_names
  split
  · rfl
  · exact rows_length_mapCol _ _ _

/-- `clean_phone_numbers` preserves the number of rows. -/
theorem rows_length_clean_phone_numbers (df : Table) :
    (clean_phone_numbers df).rows.length = df.rows.length := by
  unfold clean_phone_numbers
  split
  · rfl
  · exact rows_length_mapCol _ _ _

/-- `extract_emails` preserves the number of rows. -/
theorem rows_length_extract_emails (df : Table) :
    (extract_emails df).rows.length = df.rows.length := by
  unfold extract_emails
  split
  · rfl
  · exact rows_length_mapCol _ _ _

/-- `clean_websites` preserves the number of rows. -/
theorem rows_length_clean_websites (df : Table) :
    (clean_websites df).rows.length = df.rows.length := by
  unfold clean_websites
  split
  · rfl
  · exact rows_length_mapCol _ _ _

/-- `fill_missing_business_types` preserves the number of rows. -/
theorem rows_length_fill_types (df : Table) :
    (fill_missing_business_types df).rows.length = df.rows.length := by
  unfold fill_missing_business_types
  split
  · rfl
  · cases colIdx df "Type" <;> cases colIdx df "Business Name" <;> simp

/-- `extract_social_media_links` preserves the number of rows. -/
theorem rows_length_social (df : Table) :
    (extract_social_media_links df).rows.length = df.rows.length := by
  unfold extract_social_media_links
  split
  · rfl
  · simp [addColConst]

/-- C1, amended: in `clean_data` deduplication runs directly after schema
reconciliation and before any field canonicalization; every later stage
preserves the number of rows, so the output row count is fixed by the
duplicate resolver applied to the raw (merely column-renamed) table. -/
theorem c1_dedup_before_canonicalization (tag : String → Option AddressParsed)
    (df : Table) (h : isEmptyDf df = false) :
    (clean_data tag df).rows.length =
      (remove_duplicates (standardize_column_names df)).rows.length := by
  unfold clean_data
  rw [if_neg (by simp [h])]
  rw [rows_length_social, rows_length_fill_types, rows_length_clean_websites,
    rows_length_extract_emails, rows_length_clean_phone_numbers,
    rows_length_standardize_addresses, rows_length_clean_business_names]

/-- C1, witness: the amended claim applied to the two-row counterexample
table. -/
theorem c1_witness :
    (clean_data noParse c1Table).rows.length =
      (remove_duplicates (standardize_column_names c1Table)).rows.length :=
  c1_dedup_before_canonicalization noParse c1Table (by decide)

/-! ### C6: the columns of the output -/

/-- `ensureCol` puts its column in place. -/
theorem ensureCol_mem_self (d : Table) (c : String) : c ∈ (ensureCol d c).cols := by
  unfold ensureCol
  split
  · exact containsStr_iff.mp (by assumption)
  · simp [addColConst]

/-- `ensureCol` keeps every existing column. -/
theorem ensureCol_mono {d : Table} {x : String} (h : x ∈ d.cols) (c : String) :
    x ∈ (ensureCol d c).cols := by
  unfold ensureCol
  split
  · exact h
  · simp [addColConst, h]

/-- The required-column loop keeps every existing column. -/
theorem foldl_ensureCol_mono : ∀ (req : List String) (d : Table) (x : String),
    x ∈ d.cols → x ∈ (req.foldl ensureCol d).cols := by
  intro req
  induction req with
  | nil => intro d x h; simpa using h
  | cons c cs ih => intro d x h; exact ih _ x (ensureCol_mono h c)

/-- The required-column loop ensures every listed column. -/
theorem foldl_ensureCol_ensures : ∀ (req : List String) (d : Table) (c : String),
    c ∈ req → c ∈ (req.foldl ensureCol d).cols := by
  intro req
  induction req with
  | nil => intro d c h; simp at h
  | cons c0 cs ih =>
    intro d c h
    rcases List.mem_cons.mp h with rfl | h
    · exact foldl_ensureCol_mono cs _ c (ensureCol_mem_self d c)
    · exact ih _ c h

/-- The schema reconciler ensures all required columns. -/
theorem required_mem_standardize_column_names (df : Table) :
    ∀ c ∈ required_columns, c ∈ (standardize_column_names df).cols := by
  intro c hc
  unfold standardize_column_names
  exact foldl_ensureCol_ensures _ _ c hc

/-- `clean_business_names` keeps every existing column. -/
theorem cols_mono_clean_business_names {df : Table} {x : String}
    (h : x ∈ df.cols) : x ∈ (clean_business_names df).cols := by
  unfold clean_business_names
  split
  · exact h
  · rw [cols_mapCol]; exact h

/-- `standardize_addresses` keeps every existing column. -/
theorem cols_mono_standardize_addresses {tag : String → Option AddressParsed}
    {df : Table} {x : String} (h : x ∈ df.cols) :
    x ∈ (standardize_addresses tag df).cols := by
  unfold standardize_addresses
  split
  · exact h
  · apply cols_cityWrite_mem
    apply cols_stateWrite_mem
    unfold addrStage1
    rw [cols_mapCol]
    exact h

/-- `clean_phone_numbers` keeps every existing column. -/
theorem cols_mono_clean_phone_numbers {df : Table} {x : String}
    (h : x ∈ df.cols) : x ∈ (clean_phone_numbers df).cols := by
  unfold clean_phone_numbers
  split
  · exact h
  · rw [cols_mapCol]; exact h

/-- `extract_emails` keeps every existing column. -/
theorem cols_mono_extract_emails {df : Table} {x : String}
    (h : x ∈ df.cols) : x ∈ (extract_emails df).cols := by
  unfold extract_emails
  split
  · exact h
  · rw [cols_mapCol]; exact h

/-- `clean_websites` keeps every existing column. -/
theorem cols_mono_clean_websites {df : Table} {x : String}
    (h : x ∈ df.cols) : x ∈ (clean_websites df).cols := by
  unfold clean_websites
  split
  · exact h
  · rw [cols_mapCol]; exact h

/-- `fill_missing_business_types` leaves the column list unchanged. -/
theorem cols_fill_types (df : Table) :
    (fill_missing_business_types df).cols = df.cols := by
  unfold fill_missing_business_types
  split
  · rfl
  · cases colIdx df "Type" <;> cases colIdx df "Business Name" <;> rfl

/-- `extract_social_media_links` keeps every existing column. -/
theorem cols_mono_social {df : Table} {x : String} (h : x ∈ df.cols) :
    x ∈ (extract_social_media_links df).cols := by
  unfold extract_social_media_links
  split
  · exact h
  · exact List.mem_append_left _ h

/-- C6, amended: on a nonempty input the pipeline's output contains at least
the twelve required canonical columns (which exclude `Source` and spell the
rating column `Google Rating`); source columns outside the synonym table are
retained rather than dropped. -/
theorem c6_required_columns_present (tag : String → Option AddressParsed)
    (df : Table) (h : isEmptyDf df = false) :
    ∀ c ∈ required_columns, c ∈ (clean_data tag df).cols := by
  intro c hc
  unfold clean_data
  rw [if_neg (by simp [h])]
  apply cols_mono_social
  rw [cols_fill_types]
  apply cols_mono_clean_websites
  apply cols_mono_extract_emails
  apply cols_mono_clean_phone_numbers
  apply cols_mono_standardize_addresses
  apply cols_mono_clean_business_names
  rw [cols_remove_duplicates]
  exact required_mem_standardize_column_names df c hc

/-- C6, witness: the `State` column is present in a concrete pipeline run. -/
theorem c6_witness : "State" ∈ (clean_data noParse c6Table).cols :=
  c6_required_columns_present noParse c6Table (by decide) "State" (by decide)

/-! ### Cell-level lemmas for the column-rewrite stages -/

/-- Setting one index leaves the other indices unchanged. -/
theorem getD_set_ne_cell : ∀ (r : Row) (j' j : Nat) (v : Option String), j ≠ j' →
    (r.set j' v).getD j none = r.getD j none := by
  intro r
  induction r with
  | nil => intro j' j v _; simp
  | cons a rs ih =>
    intro j' j v hne
    rcases j' with _ | j'
    · rcases j with _ | j
      · cases hne rfl
      · simp
    · rcases j with _ | j
      · simp
      · simpa using ih j' j v (by omega)

/-- Setting an in-bounds index is read back. -/
theorem getD_set_self_cell : ∀ (r : Row) (j : Nat) (v : Option String),
    j < r.length → (r.set j v).getD j none = v := by
  intro r
  induction r with
  | nil => intro j v h; simp at h
  | cons a rs ih =>
    intro j v h
    rcases j with _ | j
    · simp
    · simpa using ih j v (by simpa using h)

/-- A found index points at the searched name. -/
theorem idxOf?_get? {c : String} : ∀ (cols : List String) (j : Nat),
    idxOf? c cols = some j → cols.get? j = some c := by
  intro cols
  induction cols with
  | nil => intro j h; simp [idxOf?] at h
  | cons x xs ih =>
    intro j h
    by_cases hx : (x == c) = true
    · simp only [idxOf?, hx, if_true] at h
      cases h
      simpa using eq_of_beq hx
    · simp only [idxOf?, hx, Bool.false_eq_true, if_false, Option.map_eq_some'] at h
      obtain ⟨k, hk, rfl⟩ := h
      simpa using ih k hk

/-- A found index is within the column list. -/
theorem idxOf?_lt_length {c : String} : ∀ (cols : List String) (j : Nat),
    idxOf? c cols = some j → j < cols.length := by
  intro cols
  induction cols with
  | nil => intro j h; simp [idxOf?] at h
  | cons x xs ih =>
    intro j h
    by_cases hx : (x == c) = true
    · simp only [idxOf?, hx, if_true] at h
      cases h
      simp
    · simp only [idxOf?, hx, Bool.false_eq_true, if_false, Option.map_eq_some'] at h
      obtain ⟨k, hk, rfl⟩ := h
      have := ih k hk
      simp
      omega

/-- Searching an extended column list finds the original index. -/
theorem idxOf?_append_left {c : String} : ∀ (cols l2 : List String), c ∈ cols →
    idxOf? c (cols ++ l2) = idxOf? c cols := by
  intro cols l2 h
  induction cols with
  | nil => simp at h
  | cons x xs ih =>
    by_cases hx : (x == c) = true
    · simp [idxOf?, hx]
    · have hc : c ∈ xs := by
        rcases List.mem_cons.mp h with rfl | h2
        · simp at hx
        · exact h2
      simp only [List.cons_append, idxOf?, hx, Bool.false_eq_true, if_false]
      rw [show xs.append l2 = xs ++ l2 from rfl, ih hc]

/-- Distinct column names have distinct indices. -/
theorem colIdx_ne_of_ne {df : Table} {c c' : String} {j j' : Nat} (h : c ≠ c')
    (h1 : colIdx df c = some j) (h2 : colIdx df c' = some j') : j ≠ j' := by
  intro heq
  subst heq
  have e1 := idxOf?_get? df.cols j h1
  have e2 := idxOf?_get? df.cols j h2
  rw [e1] at e2
  cases e2
  exact h rfl

/-- Reading an untouched column through a pointwise column set. -/
theorem map_getD_zipWith_set {j j' : Nat} (hne : j ≠ j') :
    ∀ (rows : List Row) (vals : List (Option String)), vals.length = rows.length →
    (List.zipWith (fun r v => r.set j' v) rows vals).map (fun r => r.getD j none) =
      rows.map (fun r => r.getD j none) := by
  intro rows
  induction rows with
  | nil => intro vals _; simp
  | cons r rs ih =>
    intro vals hv
    rcases vals with _ | ⟨v, vs⟩
    · simp at hv
    · simp only [List.zipWith_cons_cons, List.map_cons]
      rw [getD_set_ne_cell r j' j v hne, ih vs (by simpa using hv)]

/-- Reading the written column through a pointwise column set. -/
theorem map_getD_zipWith_set_self {j : Nat} :
    ∀ (rows : List Row) (vals : List (Option String)), vals.length = rows.length →
    (∀ r ∈ rows, j < r.length) →
    (List.zipWith (fun r v => r.set j v) rows vals).map (fun r => r.getD j none) =
      vals := by
  intro rows
  induction rows with
  | nil => intro vals hv _; simp_all
  | cons r rs ih =>
    intro vals hv hb
    rcases vals with _ | ⟨v, vs⟩
    · simp at hv
    · simp only [List.zipWith_cons_cons, List.map_cons]
      rw [getD_set_self_cell r j v (hb r (by simp)),
        ih vs (by simpa using hv) (fun r2 h2 => hb r2 (by simp [h2]))]

/-- `mapCol` on one column does not change another column's cells. -/
theorem getColCells_mapCol_ne {df : Table} {c c' : String}
    (h : c ≠ c') (f : Option String → Option String) :
    getColCells (mapCol df c' f) c = getColCells df c := by
  unfold mapCol
  cases h2 : colIdx df c'
  · rfl
  · unfold getColCells
    cases h1 : colIdx df c
    · simp only [colIdx] at h1 ⊢
      rw [h1]
    · simp only [colIdx] at h1 ⊢
      rw [h1]
      simp only [List.map_map]
      apply List.map_congr_left
      intro r _
      exact getD_set_ne_cell r _ _ _ (colIdx_ne_of_ne h h1 h2)

/-- `mapCol` rewrites its own column cell-wise. -/
theorem getColCells_mapCol_self {df : Table} {c : String} (hal : Aligned df)
    (hc : c ∈ df.cols) (f : Option String → Option String) :
    getColCells (mapCol df c f) c = (getColCells df c).map f := by
  obtain ⟨j, hj⟩ := idxOf?_of_mem df.cols hc
  have hb := idxOf?_lt_length df.cols j hj
  unfold mapCol getColCells
  simp only [colIdx, hj]
  simp only [List.map_map]
  apply List.map_congr_left
  intro r hr
  have : j < r.length := by rw [hal r hr]; exact hb
  simp only [Function.comp_apply]
  exact getD_set_self_cell r j _ this

/-- `setColVals` does not change another (present) column's cells. -/
theorem getColCells_setColVals_ne {df : Table} {c c' : String}
    (h : c ≠ c') (hc : c ∈ df.cols) (hal : Aligned df)
    (vals : List (Option String)) (hv : vals.length = df.rows.length) :
    getColCells (setColVals df c' vals) c = getColCells df c := by
  obtain ⟨j, hj⟩ := idxOf?_of_mem df.cols hc
  unfold setColVals
  cases h2 : colIdx df c'
  · -- append branch
    unfold getColCells
    simp only [colIdx, idxOf?_append_left df.cols [c'] hc, hj]
    have hb := idxOf?_lt_length df.cols j hj
    -- pointwise: (r ++ [v]).getD j = r.getD j, within bounds
    have : ∀ (rows : List Row) (vs : List (Option String)),
        (∀ r ∈ rows, r.length = df.cols.length) →
        (List.zipWith (fun r v => r ++ [v]) rows vs).map (fun r => r.getD j none) =
          (rows.take vs.length).map (fun r => r.getD j none) := by
      intro rows
      induction rows with
      | nil => intro vs _; simp
      | cons r rs ih =>
        intro vs hrows
        rcases vs with _ | ⟨v, vs⟩
        · simp
        · simp only [List.zipWith_cons_cons, List.map_cons, List.take_succ_cons]
          rw [ih vs (fun r2 h2 => hrows r2 (by simp [h2]))]
          have hlt : j < r.length := by rw [hrows r (by simp)]; exact hb
          rw [List.getD_append _ _ _ _ hlt]
          simp
    rw [this df.rows vals hal, hv, List.take_length]
  · -- overwrite branch
    unfold getColCells
    simp only [colIdx, hj]
    exact map_getD_zipWith_set (colIdx_ne_of_ne h hj h2) df.rows vals hv

/-- `setColVals` writes its own (present) column. -/
theorem getColCells_setColVals_self {df : Table} {c : String}
    (hc : c ∈ df.cols) (hal : Aligned df)
    (vals : List (Option String)) (hv : vals.length = df.rows.length) :
    getColCells (setColVals df c vals) c = vals := by
  obtain ⟨j, hj⟩ := idxOf?_of_mem df.cols hc
  have hb := idxOf?_lt_length df.cols j hj
  unfold setColVals
  simp only [colIdx, hj]
  unfold getColCells
  simp only [colIdx, hj]
  exact map_getD_zipWith_set_self df.rows vals hv
    (fun r hr => by rw [hal r hr]; exact hb)

/-- `addColConst` does not change an existing column's cells. -/
theorem getColCells_addColConst_ne {df : Table} {c c' : String} {v : Option String}
    (hc : c ∈ df.cols) (hal : Aligned df) :
    getColCells (addColConst df c' v) c = getColCells df c := by
  obtain ⟨j, hj⟩ := idxOf?_of_mem df.cols hc
  have hb := idxOf?_lt_length df.cols j hj
  unfold addColConst getColCells
  simp only [colIdx, idxOf?_append_left df.cols [c'] hc, hj]
  simp only [List.map_map]
  apply List.map_congr_left
  intro r hr
  have hlt : j < r.length := by rw [hal r hr]; exact hb
  simp only [Function.comp_apply]
  exact List.getD_append _ _ _ _ hlt

/-! ### Alignment preservation -/

/-- Every element of a `zipWith` image comes from paired elements. -/
theorem mem_of_mem_zipWith {f : Row → Option String → Row} :
    ∀ {rows : List Row} {vals : List (Option String)} {r' : Row},
    r' ∈ List.zipWith f rows vals → ∃ r ∈ rows, ∃ v ∈ vals, r' = f r v := by
  intro rows
  induction rows with
  | nil => intro vals r' h; simp at h
  | cons r rs ih =>
    intro vals r' h
    rcases vals with _ | ⟨v, vs⟩
    · simp at h
    · rcases List.mem_cons.mp h with rfl | h2
      · exact ⟨r, by simp, v, by simp, rfl⟩
      · obtain ⟨r0, hr0, v0, hv0, rfl⟩ := ih h2
        exact ⟨r0, by simp [hr0], v0, by simp [hv0], rfl⟩

/-- `mapCol` preserves alignment. -/
theorem aligned_mapCol {df : Table} {c : String} {f : Option String → Option String}
    (hal : Aligned df) : Aligned (mapCol df c f) := by
  unfold mapCol
  cases colIdx df c
  · exact hal
  · intro r hr
    obtain ⟨r0, hr0, rfl⟩ := List.mem_map.mp hr
    simp [hal r0 hr0]

/-- `setColVals` preserves alignment. -/
theorem aligned_setColVals {df : Table} {c : String} {vals : List (Option String)}
    (hal : Aligned df) : Aligned (setColVals df c vals) := by
  unfold setColVals
  cases colIdx df c
  · intro r hr
    obtain ⟨r0, hr0, v, _, rfl⟩ := mem_of_mem_zipWith hr
    simp [hal r0 hr0]
  · intro r hr
    obtain ⟨r0, hr0, v, _, rfl⟩ := mem_of_mem_zipWith hr
    simp [hal r0 hr0]

/-- `addColConst` preserves alignment. -/
theorem aligned_addColConst {df : Table} {c : String} {v : Option String}
    (hal : Aligned df) : Aligned (addColConst df c v) := by
  intro r hr
  simp only [addColConst] at hr ⊢
  obtain ⟨r0, hr0, rfl⟩ := List.mem_map.mp hr
  simp [hal r0 hr0]

/-- `ensureCol` preserves alignment. -/
theorem aligned_ensureCol {df : Table} (c : String) (hal : Aligned df) :
    Aligned (ensureCol df c) := by
  unfold ensureCol
  split
  · exact hal
  · exact aligned_addColConst hal

/-- The required-column loop preserves alignment. -/
theorem aligned_foldl_ensureCol : ∀ (req : List String) (d : Table),
    Aligned d → Aligned (req.foldl ensureCol d) := by
  intro req
  induction req with
  | nil => intro d h; simpa using h
  | cons c cs ih => intro d h; exact ih _ (aligned_ensureCol c h)

/-- The schema reconciler preserves alignment. -/
theorem aligned_standardize_column_names {df : Table} (hal : Aligned df) :
    Aligned (standardize_column_names df) := by
  unfold standardize_column_names
  apply aligned_foldl_ensureCol
  intro r hr
  simp only [List.length_map]
  exact hal r hr

/-- Rows surviving `dropDupsSeen` come from the input. -/
theorem mem_dropDupsSeen : ∀ (seen l : List Row) (r : Row),
    r ∈ dropDupsSeen seen l → r ∈ l := by
  intro seen l
  induction l generalizing seen with
  | nil => intro r h; simp [dropDupsSeen] at h
  | cons x xs ih =>
    intro r h
    by_cases hx : seen.contains x = true
    · simp only [dropDupsSeen, hx, if_true] at h
      exact List.mem_cons_of_mem _ (ih _ r h)
    · simp only [dropDupsSeen, hx, Bool.false_eq_true, if_false] at h
      rcases List.mem_cons.mp h with rfl | h2
      · simp
      · exact List.mem_cons_of_mem _ (ih _ r h2)

/-- `argmaxFirst` returns a member. -/
theorem argmaxFirst_mem {α : Type} (f : α → Nat) :
    ∀ (g : List α) (k : α), argmaxFirst f g = some k → k ∈ g := by
  intro g
  induction g with
  | nil => intro k h; simp [argmaxFirst] at h
  | cons a rest ih =>
    intro k h
    have hunf : argmaxFirst f (a :: rest) =
        (match argmaxFirst f rest with
         | none => some a
         | some c => if f a < f c then some c else some a) := rfl
    rw [hunf] at h
    cases hr : argmaxFirst f rest with
    | none => rw [hr] at h; cases h; simp
    | some b =>
      rw [hr] at h
      dsimp only at h
      by_cases hlt : f a < f b
      · rw [if_pos hlt] at h
        cases h
        exact List.mem_cons_of_mem _ (ih _ hr)
      · rw [if_neg hlt] at h
        cases h
        simp

/-- `keptOf` returns a member of the group. -/
theorem keptOf_mem {g : List Row} {k : Row} (h : keptOf g = some k) : k ∈ g := by
  unfold keptOf at h
  split at h
  · rcases g with _ | ⟨r, rest⟩
    · simp at h
    · simp only [List.head?_cons] at h
      cases h
      simp
  · exact argmaxFirst_mem _ g k h

/-- Rows surviving `remove_duplicates` come from the input. -/
theorem remove_duplicates_rows_subset {df : Table} {r : Row}
    (h : r ∈ (remove_duplicates df).rows) : r ∈ df.rows := by
  unfold remove_duplicates at h
  obtain ⟨g, hg, hk⟩ := List.mem_filterMap.mp h
  have hrg := keptOf_mem hk
  unfold fuzzyGroups at hg
  obtain ⟨k, _, rfl⟩ := List.mem_map.mp hg
  exact mem_dropDupsSeen [] df.rows r (List.mem_filter.mp hrg).1

/-- `remove_duplicates` preserves alignment. -/
theorem aligned_remove_duplicates {df : Table} (hal : Aligned df) :
    Aligned (remove_duplicates df) := by
  intro r hr
  exact hal r (remove_duplicates_rows_subset hr)

/-- `clean_business_names` preserves alignment. -/
theorem aligned_clean_business_names {df : Table} (hal : Aligned df) :
    Aligned (clean_business_names df) := by
  unfold clean_business_names
  split
  · exact hal
  · exact aligned_mapCol hal

/-- `stateWrite` preserves alignment. -/
theorem aligned_stateWrite {df : Table} (hal : Aligned df) :
    Aligned (stateWrite df) := by
  unfold stateWrite
  split
  · exact aligned_setColVals hal
  · exact hal

/-- `cityWrite` preserves alignment. -/
theorem aligned_cityWrite {df : Table} (hal : Aligned df) :
    Aligned (cityWrite df) := by
  unfold cityWrite
  split
  · exact aligned_setColVals hal
  · exact hal

/-- `standardize_addresses` preserves alignment. -/
theorem aligned_standardize_addresses {tag : String → Option AddressParsed}
    {df : Table} (hal : Aligned df) : Aligned (standardize_addresses tag df) := by
  unfold standardize_addresses
  split
  · exact hal
  · exact aligned_cityWrite (aligned_stateWrite (aligned_mapCol hal))

/-- `clean_phone_numbers` preserves alignment. -/
theorem aligned_clean_phone_numbers {df : Table} (hal : Aligned df) :
    Aligned (clean_phone_numbers df) := by
  unfold clean_phone_numbers
  split
  · exact hal
  · exact aligned_mapCol hal

/-- `extract_emails` preserves alignment. -/
theorem aligned_extract_emails {df : Table} (hal : Aligned df) :
    Aligned (extract_emails df) := by
  unfold extract_emails
  split
  · exact hal
  · exact aligned_mapCol hal

/-- `clean_websites` preserves alignment. -/
theorem aligned_clean_websites {df : Table} (hal : Aligned df) :
    Aligned (clean_websites df) := by
  unfold clean_websites
  split
  · exact hal
  · exact aligned_mapCol hal

/-- `fill_missing_business_types` preserves alignment. -/
theorem aligned_fill_types {df : Table} (hal : Aligned df) :
    Aligned (fill_missing_business_types df) := by
  unfold fill_missing_business_types
  split
  · exact hal
  · cases colIdx df "Type" <;> cases colIdx df "Business Name"
    · exact hal
    · exact hal
    · exact hal
    · intro r hr
      obtain ⟨r0, hr0, rfl⟩ := List.mem_map.mp hr
      simp [hal r0 hr0]

/-! ### C7: the State/City back-extraction gate -/

/-- `stateWrite` is the identity when the gate is off. -/
theorem stateWrite_gate_false {df : Table} (h : stateGate df = false) :
    stateWrite df = df := by
  unfold stateWrite
  simp [h]

/-- `stateWrite` overwrites `State` from `Address` when the gate is on. -/
theorem stateWrite_gate_true {df : Table} (h : stateGate df = true) :
    stateWrite df =
      setColVals df "State"
        ((getColCells df "Address").map (fun a => some (extract_state a))) := by
  unfold stateWrite
  simp [h]

/-- `cityWrite` is the identity when the gate is off. -/
theorem cityWrite_gate_false {df : Table} (h : cityGate df = false) :
    cityWrite df = df := by
  unfold cityWrite
  simp [h]

/-- `cityWrite` overwrites `City` from `Address` when the gate is on. -/
theorem cityWrite_gate_true {df : Table} (h : cityGate df = true) :
    cityWrite df =
      setColVals df "City"
        ((getColCells df "Address").map (fun a => some (extract_city a))) := by
  unfold cityWrite
  simp [h]

/-- With the column present, the `State` gate is exactly the all-NaN test. -/
theorem stateGate_eq_all {df : Table} (hS : "State" ∈ df.cols) :
    stateGate df = (getColCells df "State").all (fun c => c == none) := by
  unfold stateGate
  rw [containsStr_iff.mpr hS]
  simp

/-- With the column present, the `City` gate is exactly the all-NaN test. -/
theorem cityGate_eq_all {df : Table} (hC : "City" ∈ df.cols) :
    cityGate df = (getColCells df "City").all (fun c => c == none) := by
  unfold cityGate
  rw [containsStr_iff.mpr hC]
  simp

/-- C7, amended: with `Address`, `State` and `City` present, the State
(resp. City) back-extraction runs if and only if every cell of the State
(resp. City) column is a missing value (NaN) — not when the column is filled
with the string sentinel `"N/A"`, which blocks extraction and leaves the
column unchanged. -/
theorem c7_extraction_gate (tag : String → Option AddressParsed) (df : Table)
    (hal : Aligned df) (hA : "Address" ∈ df.cols) (hS : "State" ∈ df.cols)
    (hC : "City" ∈ df.cols) :
    getColCells (standardize_addresses tag df) "State" =
      (if ∀ v ∈ getColCells df "State", v = none
       then (getColCells (addrStage1 tag df) "Address").map
              (fun a => some (extract_state a))
       else getColCells df "State") ∧
    getColCells (standardize_addresses tag df) "City" =
      (if ∀ v ∈ getColCells df "City", v = none
       then (getColCells (addrStage1 tag df) "Address").map
              (fun a => some (extract_city a))
       else getColCells df "City") := by
  have hcontA : df.cols.contains "Address" = true := containsStr_iff.mpr hA
  have hstd : standardize_addresses tag df =
      cityWrite (stateWrite (addrStage1 tag df)) := by
    unfold standardize_addresses addrStage1
    simp only [hcontA, Bool.not_true, Bool.false_eq_true, if_false]
  have hal1 : Aligned (addrStage1 tag df) := aligned_mapCol hal
  have hcols1 : (addrStage1 tag df).cols = df.cols := by
    unfold addrStage1
    exact cols_mapCol _ _ _
  have hA1 : "Address" ∈ (addrStage1 tag df).cols := by rw [hcols1]; exact hA
  have hS1 : "State" ∈ (addrStage1 tag df).cols := by rw [hcols1]; exact hS
  have hC1 : "City" ∈ (addrStage1 tag df).cols := by rw [hcols1]; exact hC
  have eS1 : getColCells (addrStage1 tag df) "State" = getColCells df "State" := by
    unfold addrStage1
    exact getColCells_mapCol_ne (by decide) _
  have eC1 : getColCells (addrStage1 tag df) "City" = getColCells df "City" := by
    unfold addrStage1
    exact getColCells_mapCol_ne (by decide) _
  have hlenS : ((getColCells (addrStage1 tag df) "Address").map
      (fun a => some (extract_state a))).length = (addrStage1 tag df).rows.length := by
    simp [getColCells_length_of_mem hA1]
  by_cases hallS : ∀ v ∈ getColCells df "State", v = none
  · have hg : stateGate (addrStage1 tag df) = true := by
      rw [stateGate_eq_all hS1, eS1]
      simp only [List.all_eq_true]
      intro v hv
      simp [hallS v hv]
    rw [hstd, stateWrite_gate_true hg]
    have hal2 : Aligned (setColVals (addrStage1 tag df) "State"
        ((getColCells (addrStage1 tag df) "Address").map
          (fun a => some (extract_state a)))) := aligned_setColVals hal1
    have hS2 := @cols_setColVals_mem (addrStage1 tag df) "State"
      ((getColCells (addrStage1 tag df) "Address").map
        (fun a => some (extract_state a))) _ hS1
    have hC2 := @cols_setColVals_mem (addrStage1 tag df) "State"
      ((getColCells (addrStage1 tag df) "Address").map
        (fun a => some (extract_state a))) _ hC1
    have hA2 := @cols_setColVals_mem (addrStage1 tag df) "State"
      ((getColCells (addrStage1 tag df) "Address").map
        (fun a => some (extract_state a))) _ hA1
    have eS2 : getColCells (setColVals (addrStage1 tag df) "State"
        ((getColCells (addrStage1 tag df) "Address").map
          (fun a => some (extract_state a)))) "State" =
        (getColCells (addrStage1 tag df) "Address").map
          (fun a => some (extract_state a)) :=
      getColCells_setColVals_self hS1 hal1 _ hlenS
    have eC2 : getColCells (setColVals (addrStage1 tag df) "State"
        ((getColCells (addrStage1 tag df) "Address").map
          (fun a => some (extract_state a)))) "City" = getColCells df "City" := by
      rw [getColCells_setColVals_ne (by decide) hC1 hal1 _ hlenS]
      exact eC1
    have eA2 : getColCells (setColVals (addrStage1 tag df) "State"
        ((getColCells (addrStage1 tag df) "Address").map
          (fun a => some (extract_state a)))) "Address" =
        getColCells (addrStage1 tag df) "Address" :=
      getColCells_setColVals_ne (by decide) hA1 hal1 _ hlenS
    have hlenC2 : ((getColCells (setColVals (addrStage1 tag df) "State"
        ((getColCells (addrStage1 tag df) "Address").map
          (fun a => some (extract_state a)))) "Address").map
        (fun a => some (extract_city a))).length =
        (setColVals (addrStage1 tag df) "State"
          ((getColCells (addrStage1 tag df) "Address").map
            (fun a => some (extract_state a)))).rows.length := by
      simp [getColCells_length_of_mem hA2]
    by_cases hallC : ∀ v ∈ getColCells df "City", v = none
    · have hgc : cityGate (setColVals (addrStage1 tag df) "State"
          ((getColCells (addrStage1 tag df) "Address").map
            (fun a => some (extract_state a)))) = true := by
        rw [cityGate_eq_all hC2, eC2]
        simp only [List.all_eq_true]
        intro v hv
        simp [hallC v hv]
      rw [cityWrite_gate_true hgc]
      constructor
      · rw [if_pos hallS,
          getColCells_setColVals_ne (by decide) hS2 hal2 _ hlenC2]
        exact eS2
      · rw [if_pos hallC, getColCells_setColVals_self hC2 hal2 _ hlenC2, eA2]
    · have hgc : cityGate (setColVals (addrStage1 tag df) "State"
          ((getColCells (addrStage1 tag df) "Address").map
            (fun a => some (extract_state a)))) = false := by
        rw [cityGate_eq_all hC2, eC2]
        rw [Bool.eq_false_iff]
        intro hcon
        rw [List.all_eq_true] at hcon
        exact hallC (fun v hv => by simpa using hcon v hv)
      rw [cityWrite_gate_false hgc]
      constructor
      · rw [if_pos hallS]
        exact eS2
      · rw [if_neg hallC]
        exact eC2
  · have hg : stateGate (addrStage1 tag df) = false := by
      rw [stateGate_eq_all hS1, eS1]
      rw [Bool.eq_false_iff]
      intro hcon
      rw [List.all_eq_true] at hcon
      exact hallS (fun v hv => by simpa using hcon v hv)
    rw [hstd, stateWrite_gate_false hg]
    have hlenC1 : ((getColCells (addrStage1 tag df) "Address").map
        (fun a => some (extract_city a))).length =
        (addrStage1 tag df).rows.length := by
      simp [getColCells_length_of_mem hA1]
    by_cases hallC : ∀ v ∈ getColCells df "City", v = none
    · have hgc : cityGate (addrStage1 tag df) = true := by
        rw [cityGate_eq_all hC1, eC1]
        simp only [List.all_eq_true]
        intro v hv
        simp [hallC v hv]
      rw [cityWrite_gate_true hgc]
      constructor
      · rw [if_neg hallS,
          getColCells_setColVals_ne (by decide) hS1 hal1 _ hlenC1]
        exact eS1
      · rw [if_pos hallC, getColCells_setColVals_self hC1 hal1 _ hlenC1]
    · have hgc : cityGate (addrStage1 tag df) = false := by
        rw [cityGate_eq_all hC1, eC1]
        rw [Bool.eq_false_iff]
        intro hcon
        rw [List.all_eq_true] at hcon
        exact hallC (fun v hv => by simpa using hcon v hv)
      rw [cityWrite_gate_false hgc]
      constructor
      · rw [if_neg hallS]
        exact eS1
      · rw [if_neg hallC]
        exact eC1

/-- C7, witness: on a table whose `State` column holds the string sentinel,
the gate is off and the `State` column passes through unchanged. -/
theorem c7_witness :
    getColCells (standardize_addresses noParse
      (Table.mk ["Address", "State", "City"]
        [[some "123 Main St, Springfield, IL 62704", some "N/A", some "N/A"]]))
      "State" = [some "N/A"] := by
  have h := (c7_extraction_gate noParse
    (Table.mk ["Address", "State", "City"]
      [[some "123 Main St, Springfield, IL 62704", some "N/A", some "N/A"]])
    (by decide) (by decide) (by decide) (by decide)).1
  rw [h]
  rw [if_neg (by decide)]
  decide

/-! ### C9: the shape of Phone values after the pipeline -/

/-- Trimming gives back a sublist. -/
theorem trimL_sublist (l : List Char) : List.Sublist (trimL l) l := by
  unfold trimL
  have h1 : List.Sublist (l.dropWhile isWsChar) l := List.dropWhile_sublist _
  have h2 : List.Sublist ((l.dropWhile isWsChar).reverse.dropWhile isWsChar)
      (l.dropWhile isWsChar).reverse := List.dropWhile_sublist _
  have h3 := h2.reverse
  rw [List.reverse_reverse] at h3
  exact h3.trans h1

/-- Every phone-cleaner output is the sentinel, a formatted number, or a
short (fewer than ten digits) passthrough. -/
theorem standardize_phone_cases (x : Option String) :
    standardize_phone x = "N/A" ∨ isPhoneFmt (standardize_phone x) = true ∨
      (digitsL (standardize_phone x).toList).length < 10 := by
  rcases x with _ | s
  · left; rfl
  · by_cases hs : s = "N/A"
    · left; simp [standardize_phone, hs]
    · rw [standardize_phone_eq_phoneSpec s]
      by_cases h10 : 10 ≤ (digitsL s.toList).length
      · obtain ⟨d10, hl, hd, he⟩ := phoneSpec_formats s h10
        rw [he]
        right; left
        exact isPhoneFmt_fmtPhone d10 hl hd
      · right; right
        unfold phoneSpec
        rw [if_pos (by omega)]
        have hle : (digitsL (trimL s.toList)).length ≤ (digitsL s.toList).length :=
          List.Sublist.length_le (List.Sublist.filter _ (trimL_sublist s.toList))
        have : (digitsL ((trimL s.toList).asString).toList).length =
            (digitsL (trimL s.toList)).length := rfl
        omega

/-- `extract_emails` does not change another column's cells. -/
theorem getColCells_extract_emails_ne {df : Table} {c : String}
    (hne : c ≠ "Email") :
    getColCells (extract_emails df) c = getColCells df c := by
  unfold extract_emails
  split
  · rfl
  · exact getColCells_mapCol_ne hne _

/-- `clean_websites` does not change another column's cells. -/
theorem getColCells_clean_websites_ne {df : Table} {c : String}
    (hne : c ≠ "Website") :
    getColCells (clean_websites df) c = getColCells df c := by
  unfold clean_websites
  split
  · rfl
  · exact getColCells_mapCol_ne hne _

/-- `fill_missing_business_types` does not change another column's cells. -/
theorem getColCells_fill_types_ne {df : Table} {c : String}
    (hne : c ≠ "Type") :
    getColCells (fill_missing_business_types df) c = getColCells df c := by
  unfold fill_missing_business_types
  split
  · rfl
  · cases hti : colIdx df "Type" <;> cases hbi : colIdx df "Business Name"
    · rfl
    · rfl
    · rfl
    · unfold getColCells
      cases hj : colIdx df c
      · simp only [colIdx] at hj ⊢
        rw [hj]
      · simp only [colIdx] at hj ⊢
        rw [hj]
        simp only [List.map_map]
        apply List.map_congr_left
        intro r _
        exact getD_set_ne_cell r _ _ _ (colIdx_ne_of_ne hne hj hti)

/-- `extract_social_media_links` does not change an existing column's cells. -/
theorem getColCells_social_ne {df : Table} {c : String}
    (hc : c ∈ df.cols) (hal : Aligned df) :
    getColCells (extract_social_media_links df) c = getColCells df c := by
  unfold extract_social_media_links
  split
  · rfl
  · exact getColCells_addColConst_ne hc hal

/-- Unpacking membership in a `some`-mapped column. -/
theorem mem_map_some {f : Option String → String} :
    ∀ (l : List (Option String)) (v : String),
    some v ∈ l.map (fun c => some (f c)) → ∃ x ∈ l, v = f x := by
  intro l v h
  obtain ⟨x, hx, hxv⟩ := List.mem_map.mp h
  refine ⟨x, hx, ?_⟩
  injection hxv with h2
  exact h2.symm

/-- `clean_phone_numbers` rewrites the `Phone` column cell-wise. -/
theorem phone_cells_clean_phone_numbers {df : Table} (hal : Aligned df)
    (hP : "Phone" ∈ df.cols) :
    getColCells (clean_phone_numbers df) "Phone" =
      (getColCells df "Phone").map (fun c => some (standardize_phone c)) := by
  unfold clean_phone_numbers
  rw [if_neg (by simp [hP])]
  exact getColCells_mapCol_self hal hP _

set_option maxHeartbeats 2000000 in
/-- C9, amended: after the full pipeline on a nonempty aligned table, every
`Phone` value is the sentinel, a `(XXX) XXX-XXXX` formatted number, or a
passthrough value with fewer than ten digits (the trimmed original that
could not be standardized). -/
theorem c9_phone_after_pipeline (tag : String → Option AddressParsed)
    (df : Table) (hal : Aligned df) (h : isEmptyDf df = false) :
    ∀ v : String, some v ∈ getColCells (clean_data tag df) "Phone" →
      v = "N/A" ∨ isPhoneFmt v = true ∨ (digitsL v.toList).length < 10 := by
  intro v hv
  unfold clean_data at hv
  rw [if_neg (by simp [h])] at hv
  set A := remove_duplicates (standardize_column_names df) with hdefA
  have halA : Aligned A :=
    aligned_remove_duplicates (aligned_standardize_column_names hal)
  have hPA : "Phone" ∈ A.cols := by
    rw [hdefA, cols_remove_duplicates]
    exact required_mem_standardize_column_names df "Phone" (by decide)
  set B := clean_business_names A with hdefB
  have halB : Aligned B := aligned_clean_business_names halA
  have hPB : "Phone" ∈ B.cols := cols_mono_clean_business_names hPA
  set C := standardize_addresses tag B with hdefC
  have halC : Aligned C := aligned_standardize_addresses halB
  have hPC : "Phone" ∈ C.cols := cols_mono_standardize_addresses hPB
  set D := clean_phone_numbers C with hdefD
  have halD : Aligned D := aligned_clean_phone_numbers halC
  have hPD : "Phone" ∈ D.cols := cols_mono_clean_phone_numbers hPC
  have hPE : "Phone" ∈ (clean_websites (extract_emails D)).cols :=
    cols_mono_clean_websites (cols_mono_extract_emails hPD)
  have hPF : "Phone" ∈ (fill_missing_business_types
      (clean_websites (extract_emails D))).cols := by
    rw [cols_fill_types]
    exact hPE
  have halF : Aligned (fill_missing_business_types
      (clean_websites (extract_emails D))) :=
    aligned_fill_types (aligned_clean_websites (aligned_extract_emails halD))
  rw [getColCells_social_ne hPF halF, getColCells_fill_types_ne (by decide),
    getColCells_clean_websites_ne (by decide),
    getColCells_extract_emails_ne (by decide),
    phone_cells_clean_phone_numbers halC hPC] at hv
  obtain ⟨x, -, rfl⟩ := mem_map_some _ _ hv
  exact standardize_phone_cases x

/-- C9, witness: the amended claim applied to the counterexample table. -/
theorem c9_witness :
    ("12345" : String) = "N/A" ∨ isPhoneFmt "12345" = true ∨
      (digitsL "12345".toList).length < 10 :=
  c9_phone_after_pipeline noParse c9Table (by decide) (by decide) "12345"
    (by decide)

/-! ### C8: the anchored email pattern -/

/-- A successful anchored match implies an `'@'` in the input. -/
theorem matchEmail_some_has_at {l m : List Char} (h : matchEmail l = some m) :
    '@' ∈ l := by
  unfold matchEmail at h
  dsimp only at h
  split at h
  · simp at h
  · split at h
    · rename_i t heq
      have hin : '@' ∈ l.drop (l.takeWhile classA).length := by
        rw [heq]
        simp
      exact List.drop_subset _ l hin
    · simp at h

/-- C8, amended: `validate_email` lower-cases and trims; because the email
pattern begins with `^`, both the initial `re.match` and the fallback
`re.search` are anchored at the start, so the cleaner returns the whole
lower-cased trimmed string whenever the pattern matches a prefix of it (even
when trailing non-email text remains), and the sentinel otherwise — an email
strictly inside the string is never extracted. -/
theorem c8_email_anchored (e : String) (he : e ≠ "N/A") :
    (matchEmail ((trimL e.toList).map Char.toLower) = none →
       validate_email (some e) = "N/A") ∧
    (matchEmail ((trimL e.toList).map Char.toLower) ≠ none →
       validate_email (some e) = ((trimL e.toList).map Char.toLower).asString) ∧
    (validate_email (some e) = "N/A" ↔
       matchEmail ((trimL e.toList).map Char.toLower) = none) := by
  have hv : validate_email (some e) =
      (match matchEmail ((trimL e.toList).map Char.toLower) with
       | some _ => ((trimL e.toList).map Char.toLower).asString
       | none =>
         match searchEmailCaret ((trimL e.toList).map Char.toLower) with
         | some m => m.asString
         | none => "N/A") := by
    simp only [validate_email, he, if_false]
  cases hm : matchEmail ((trimL e.toList).map Char.toLower) with
  | none =>
    have hna : validate_email (some e) = "N/A" := by
      rw [hv, hm]
      simp only [searchEmailCaret]
      rw [hm]
    exact ⟨fun _ => hna, fun hc => absurd rfl hc, by simp [hna]⟩
  | some m =>
    have hout : validate_email (some e) =
        ((trimL e.toList).map Char.toLower).asString := by
      rw [hv, hm]
    have hat : '@' ∈ (trimL e.toList).map Char.toLower :=
      matchEmail_some_has_at hm
    have hne2 : ((trimL e.toList).map Char.toLower).asString ≠ "N/A" := by
      intro hcon
      have hlist : (trimL e.toList).map Char.toLower = "N/A".toList := by
        have := congrArg String.toList hcon
        simpa using this
      rw [hlist] at hat
      exact absurd hat (by decide)
    refine ⟨fun hc => Option.noConfusion hc, fun _ => hout, ?_⟩
    constructor
    · intro hNA
      exact absurd (hout.symm.trans hNA) hne2
    · intro hc
      exact Option.noConfusion hc

/-- C8, witness: an upper-cased address is returned lower-cased and trimmed. -/
theorem c8_witness :
    validate_email (some "JOHN@EXAMPLE.COM ") = "john@example.com" := by
  rw [(c8_email_anchored "JOHN@EXAMPLE.COM " (by decide)).2.1 (by decide)]
  decide

/-- C2, witness: on a concrete group of two rows with scores two and three,
the resolver keeps the second (more complete) row. -/
theorem c2_witness :
    ∃ keep, keptOf
      [[some "ABC Funeral Home", some "9 Oak St, X", some "N/A"],
       [some "Abc Funeral Home Inc", some "9 Oak St, Y", some "a@b.co"]] = some keep ∧
      keep = [some "Abc Funeral Home Inc", some "9 Oak St, Y", some "a@b.co"] := by
  have h := c2_resolver_keeps_first_max c2Table
    [[some "ABC Funeral Home", some "9 Oak St, X", some "N/A"],
     [some "Abc Funeral Home Inc", some "9 Oak St, Y", some "a@b.co"]] (by decide)
  obtain ⟨-, keep, hk, -, -, -, -⟩ := h
  exact ⟨keep, hk, by
    have : keptOf
      [[some "ABC Funeral Home", some "9 Oak St, X", some "N/A"],
       [some "Abc Funeral Home Inc", some "9 Oak St, Y", some "a@b.co"]] =
        some [some "Abc Funeral Home Inc", some "9 Oak St, Y", some "a@b.co"] := by decide
    rw [this] at hk
    exact (Option.some.injEq _ _).mp hk.symm⟩

end Junoon
